import Mathlib

/-!
Shallow embedding of the Ambient `project_semantic` crate
(`src/shared_crates/project_semantic/src/lib.rs`): the manifest loader,
the root-scope bootstrap and the scope tree, together with the parts of
the crate's submodules (`item.rs`, `scope.rs`, `component.rs`, ...) and
collaborating crates (`ambient_project`, `ambient_schema`,
`ambient_shared_types`, `ambient_std::path`) that are not part of the
available sources; those parts are modelled from the specification and
marked as such in their doc comments.

Machine integers do not occur in this code; item handles are array
indices, modelled as `Nat`.  Filesystem paths are modelled as segment
lists.  File contents are modelled as their parse results, since the
TOML grammar is an external collaborator of the crate under
specification.  The loader's recursion is driven by provider-supplied
file contents and is therefore not structurally terminating; the
embedding adds an explicit recursion-depth parameter (`fuel`), and a
dedicated error value for its exhaustion, which no theorem below
conflates with the errors the Rust code can produce.
-/

namespace ProjectSemantic

/-- Filesystem paths (`PathBuf`), modelled as lists of segments. -/
abbrev FsPath := List String

/-- `PathBuf::join` for the relative right-hand sides the loader uses. -/
def joinPath (a b : FsPath) : FsPath := a ++ b

/-- Modelled from the spec: `ambient_std::path::normalize` (not under
`src/`); providers "must canonicalize `full_path` so that two spellings
of the same file compare equal", modelled as resolution of `.` and `..`
segments. -/
def normalizePath (p : FsPath) : FsPath :=
  p.foldl
    (fun acc seg =>
      if seg = "." then acc
      else if seg = ".." then acc.dropLast
      else acc ++ [seg])
    []

/-- The ordered identifier-keyed mappings of a scope (`IndexMap<_, ItemId<_>>`),
modelled as association lists with unique keys maintained by `mapInsert`. -/
abbrev SMap := List (String × Nat)

/-- `IndexMap::get`: first (unique) binding of the key. -/
def mapLookup (m : SMap) (k : String) : Option Nat :=
  match m with
  | [] => none
  | (k', v) :: rest => if k' = k then some v else mapLookup rest k

/-- `IndexMap::insert`: replace the value at an existing key in place,
otherwise append the new binding. -/
def mapInsert (m : SMap) (k : String) (v : Nat) : SMap :=
  match m with
  | [] => [(k, v)]
  | (k', v') :: rest =>
    if k' = k then (k, v) :: rest else (k', v') :: mapInsert rest k v

/-- `ItemSource` from `item.rs`: where an item was declared. -/
inductive ItemSource where
  | system
  | ambient
  | user
deriving DecidableEq, Repr

/-- `ItemData` from `item.rs`: the data shared by every item. Identifier
validation lives in the missing `ambient_project` crate; identifiers are
modelled as raw strings. -/
structure ItemData where
  parent_id : Option Nat
  id : String
  source : ItemSource
deriving DecidableEq, Repr

/-- Modelled from the spec: the closed primitive set produced by
`ambient_shared_types::primitive_component_definitions!` (not under
`src/`): "the usual scalar, vector, and handle primitives of the host
system", each named by its PascalCase variant name. -/
inductive PrimitiveType where
  | Empty | Bool | EntityId | F32 | F64 | Mat4 | I32 | Quat
  | String | U8 | U32 | U64 | Vec2 | Vec3 | Vec4 | Uvec2 | Uvec3 | Uvec4
  | Duration
deriving DecidableEq, Repr

/-- Modelled from the spec: the `(stringify!($value), PrimitiveType::$value)`
pairs that `create_root_scope` iterates. -/
def primitive_definitions : List (String × PrimitiveType) :=
  [("Empty", .Empty), ("Bool", .Bool), ("EntityId", .EntityId),
   ("F32", .F32), ("F64", .F64), ("Mat4", .Mat4), ("I32", .I32),
   ("Quat", .Quat), ("String", .String), ("U8", .U8), ("U32", .U32),
   ("U64", .U64), ("Vec2", .Vec2), ("Vec3", .Vec3), ("Vec4", .Vec4),
   ("Uvec2", .Uvec2), ("Uvec3", .Uvec3), ("Uvec4", .Uvec4),
   ("Duration", .Duration)]

/-- A dotted item path from a manifest, already split by
`path.scope_and_item()` into its scope segments and final item segment. -/
structure IdentPath where
  scopeSegs : List String
  item : String
deriving DecidableEq, Repr

/-- Modelled from the spec: a textual type expression — a bare dotted
path naming a `Type`, or a `Vec<...>` / `Option<...>` wrapper around an
inner path. -/
inductive TypeExpr where
  | named (p : IdentPath)
  | vecOf (inner : IdentPath)
  | optionOf (inner : IdentPath)
deriving DecidableEq, Repr

/-- Modelled from the spec: a manifest `components` entry. -/
structure ManifestComponent where
  name : Option String
  description : Option String
  type_ : TypeExpr
  attributes : List IdentPath
  default : Option String
deriving DecidableEq, Repr

/-- Modelled from the spec: a manifest `concepts` entry. -/
structure ManifestConcept where
  name : Option String
  description : Option String
  extends_ : List IdentPath
  components : List (IdentPath × String)
deriving DecidableEq, Repr

/-- Modelled from the spec: a manifest `messages` entry. -/
structure ManifestMessage where
  description : Option String
  fields : List (String × TypeExpr)
deriving DecidableEq, Repr

/-- Modelled from the spec: a manifest `enums` entry. -/
structure ManifestEnum where
  members : List (String × String)
deriving DecidableEq, Repr

/-- `Dependency` from `ambient_project`: `Path { path }` is the only
recognized variant. -/
inductive Dependency where
  | path (p : FsPath)
deriving DecidableEq, Repr

/-- The `ember` section of a manifest: its id and its `includes` list. -/
structure Ember where
  id : String
  includes : List FsPath
deriving DecidableEq, Repr

/-- Modelled from the spec: the parsed `Manifest` value delivered by the
external `ambient_project` parser (§6 of the spec). -/
structure Manifest where
  ember : Ember
  dependencies : List (String × Dependency)
  components : List (IdentPath × ManifestComponent)
  concepts : List (IdentPath × ManifestConcept)
  messages : List (IdentPath × ManifestMessage)
  enums : List (String × ManifestEnum)
deriving DecidableEq, Repr

/-- `ResolvableItemId<T>`: an unresolved textual reference or a resolved
arena handle. -/
inductive ResolvableItemId where
  | unresolved (p : IdentPath)
  | resolved (id : Nat)
deriving DecidableEq, Repr

/-- The resolvable type position of a component: an unresolved type
expression or a resolved handle to a `Type` item. -/
inductive ResolvableType where
  | unresolved (e : TypeExpr)
  | resolved (id : Nat)
deriving DecidableEq, Repr

/-- A resolvable value: an unresolved textual token or its resolved form
(kept as the token; scalar interpretation is outside the claims). -/
inductive ResolvableValue where
  | unresolved (token : String)
  | resolved (token : String)
deriving DecidableEq, Repr

/-- `Scope` from `scope.rs`: a namespace node with its five item
mappings, its child-scope mapping and its dependency list. -/
structure Scope where
  data : ItemData
  original_id : String
  manifest_path : Option FsPath
  manifest : Option Manifest
  scopes : SMap
  components : SMap
  concepts : SMap
  messages : SMap
  types : SMap
  attributes : SMap
  dependencies : List Nat
deriving DecidableEq, Repr

/-- `Scope::new(data, original_id, manifest_path, manifest)`: a scope
with empty mappings. -/
def Scope.new (data : ItemData) (original_id : String)
    (manifest_path : Option FsPath) (manifest : Option Manifest) : Scope :=
  { data, original_id, manifest_path, manifest,
    scopes := [], components := [], concepts := [], messages := [],
    types := [], attributes := [], dependencies := [] }

/-- `Component` from `component.rs` (modelled from the spec §3): a typed
slot with attributes and an optional default, all references unresolved
at load time. -/
structure Component where
  data : ItemData
  name : Option String
  description : Option String
  type_ : ResolvableType
  attributes : List ResolvableItemId
  default : Option ResolvableValue
deriving DecidableEq, Repr

/-- `Concept` from `concept.rs` (modelled from the spec §3). -/
structure Concept where
  data : ItemData
  name : Option String
  description : Option String
  extends_ : List ResolvableItemId
  components : List (ResolvableItemId × ResolvableValue)
deriving DecidableEq, Repr

/-- `Message` from `message.rs` (modelled from the spec §3). -/
structure Message where
  data : ItemData
  description : Option String
  fields : List (String × ResolvableType)
deriving DecidableEq, Repr

/-- `TypeInner` from `type_.rs` (modelled from the spec §3). -/
inductive TypeInner where
  | primitive (pt : PrimitiveType)
  | vec (inner : ResolvableType)
  | option (inner : ResolvableType)
  | enum (members : List (String × String))
deriving DecidableEq, Repr

/-- `Type` from `type_.rs`; named `Ty` because `Type` is reserved in Lean. -/
structure Ty where
  data : ItemData
  inner : TypeInner
deriving DecidableEq, Repr

/-- `Type::new`. -/
def Ty.new (data : ItemData) (inner : TypeInner) : Ty := { data, inner }

/-- `Attribute` from `attribute.rs`: a nominal marker. -/
structure Attribute where
  data : ItemData
deriving DecidableEq, Repr

/-- `ItemValue`: the closed sum of item kinds stored in the arena. -/
inductive ItemValue where
  | scope (s : Scope)
  | component (c : Component)
  | concept (c : Concept)
  | message (m : Message)
  | ty (t : Ty)
  | attribute (a : Attribute)
deriving DecidableEq, Repr

/-- `ItemMap` from `item.rs` (modelled from the spec §4.3): the single
append-only arena; a handle is the index at which the item was added. -/
structure ItemMap where
  items : List ItemValue
deriving DecidableEq, Repr

/-- The empty arena (`ItemMap::default()`). -/
def ItemMap.empty : ItemMap := ⟨[]⟩

/-- `ItemMap::add`: append, returning the new arena and the fresh handle. -/
def ItemMap.add (m : ItemMap) (v : ItemValue) : ItemMap × Nat :=
  (⟨m.items ++ [v]⟩, m.items.length)

/-- `ItemMap::get`: read the item at a handle. -/
def ItemMap.get (m : ItemMap) (i : Nat) : Option ItemValue :=
  m.items[i]?

/-- Arena cardinality. -/
def ItemMap.size (m : ItemMap) : Nat := m.items.length

/-- Errors of the loader. The Rust code reports these through `anyhow`;
the distinctions the spec names are modelled as constructors.
`fuelExhausted` is an artifact of the embedding's recursion-depth
parameter and corresponds to no Rust behaviour. -/
inductive LoadError where
  | readError (path : FsPath)
  | parseError (path : FsPath) (msg : String)
  | duplicateScope (name : String) (path : FsPath)
  | circularInclude (path : FsPath) (visited : List FsPath)
  | dependencyFailed (name : String) (inner : LoadError)
  | internalError
  | fuelExhausted
deriving DecidableEq, Repr

/-- `ItemMap::get_mut::<Scope>(i)` followed by a mutation `f`: fails (as
the arena access does) when the handle does not name a scope. -/
def modifyScope (m : ItemMap) (i : Nat) (f : Scope → Scope) :
    Except LoadError ItemMap :=
  match m.get i with
  | some (.scope sc) => .ok ⟨m.items.set i (.scope (f sc))⟩
  | _ => .error .internalError

/-- Write an item back at a handle (the write-back step of the
`clone-resolve-write-back` discipline, spec §4.3). -/
def modifyItem (m : ItemMap) (i : Nat) (v : ItemValue) : Option ItemMap :=
  if i < m.items.length then some ⟨m.items.set i v⟩ else none

/-- `StandardAttributes`: the handles of the six standard attributes. -/
structure StandardAttributes where
  debuggable : Nat
  networked : Nat
  resource : Nat
  maybe_resource : Nat
  store : Nat
  enum_ : Nat
deriving DecidableEq, Repr

/-- `StandardDefinitions`. -/
structure StandardDefinitions where
  attributes : StandardAttributes
deriving DecidableEq, Repr

/-- `Semantic`: the arena, the root scope handle and the standard
definitions. -/
structure Semantic where
  items : ItemMap
  root_scope_id : Nat
  standard_definitions : StandardDefinitions
deriving DecidableEq, Repr

/-- One step of `create_root_scope`'s primitive loop: add a
`Type::Primitive` under the root and register it in the root's `types`
map under its PascalCase id. -/
def addPrimitive (root_scope : Nat) (items : ItemMap)
    (entry : String × PrimitiveType) : Except LoadError ItemMap :=
  let ty := Ty.new
    { parent_id := some root_scope, id := entry.1, source := .system }
    (.primitive entry.2)
  let (items1, item_id) := items.add (.ty ty)
  modifyScope items1 root_scope
    (fun sc => { sc with types := mapInsert sc.types entry.1 item_id })

/-- `make_attribute` from `create_root_scope`: add a standard attribute
under the root and register it in the root's `attributes` map. -/
def make_attribute (items : ItemMap) (root_scope : Nat) (name : String) :
    Except LoadError (ItemMap × Nat) := do
  let (items1, item_id) := items.add (.attribute
    { data := { parent_id := some root_scope, id := name, source := .system } })
  let items2 ← modifyScope items1 root_scope
    (fun sc => { sc with attributes := mapInsert sc.attributes name item_id })
  return (items2, item_id)

/-- `create_root_scope`: build the root scope (empty id, `System`
source), one primitive type per entry of the closed primitive set, and
the six standard attributes, returning the root handle and the standard
definitions. -/
def create_root_scope (items : ItemMap) :
    Except LoadError (ItemMap × Nat × StandardDefinitions) := do
  let (items0, root_scope) := items.add (.scope (Scope.new
    { parent_id := none, id := "", source := .system } "" none none))
  let items1 ← primitive_definitions.foldlM (addPrimitive root_scope) items0
  let (items2, debuggable) ← make_attribute items1 root_scope "Debuggable"
  let (items3, networked) ← make_attribute items2 root_scope "Networked"
  let (items4, resource) ← make_attribute items3 root_scope "Resource"
  let (items5, maybe_resource) ← make_attribute items4 root_scope "MaybeResource"
  let (items6, store) ← make_attribute items5 root_scope "Store"
  let (items7, enum_) ← make_attribute items6 root_scope "Enum"
  let standard_definitions : StandardDefinitions :=
    { attributes :=
      { debuggable, networked, resource, maybe_resource, store, enum_ } }
  return (items7, root_scope, standard_definitions)

/-- The `FileProvider` trait. File contents are modelled as their parse
results, since the TOML grammar is an external collaborator of the crate
(spec §1); `get` returns `none` for the provider's not-found error. -/
structure FileProvider where
  get : FsPath → Option (Except String Manifest)
  full_path : FsPath → FsPath

/-- `Manifest::parse` from the external `ambient_project` crate: with
contents modelled pre-parsed, parsing passes the carried result through. -/
def Manifest.parse (content : Except String Manifest) : Except String Manifest :=
  content

/-- `DiskFileProvider`: reads from the filesystem, which is modelled as
a function from paths to contents. -/
def DiskFileProvider (fs : FsPath → Option (Except String Manifest))
    (base : FsPath) : FileProvider :=
  { get := fun p => fs (joinPath base p)
    full_path := fun p => normalizePath (joinPath base p) }

/-- `ArrayFileProvider`: reads from an array of files; `full_path` is
the path itself. -/
def ArrayFileProvider (files : List (FsPath × Except String Manifest)) :
    FileProvider :=
  { get := fun p => (files.find? (fun f => f.1 = p)).map (fun f => f.2)
    full_path := fun p => p }

/-- `ProxyFileProvider`: rebases another provider under `base`. -/
def ProxyFileProvider (provider : FileProvider) (base : FsPath) :
    FileProvider :=
  { get := fun p => provider.get (joinPath base p)
    full_path := fun p => normalizePath (provider.full_path (joinPath base p)) }

/-- `Component::from_project` (modelled from the spec §4.5 step 6): a
new component with every reference in the `Unresolved` arm. -/
def Component.from_project (data : ItemData) (c : ManifestComponent) :
    Component :=
  { data, name := c.name, description := c.description,
    type_ := .unresolved c.type_,
    attributes := c.attributes.map .unresolved,
    default := c.default.map .unresolved }

/-- `Concept::from_project` (modelled from the spec §4.5 step 7). -/
def Concept.from_project (data : ItemData) (c : ManifestConcept) : Concept :=
  { data, name := c.name, description := c.description,
    extends_ := c.extends_.map .unresolved,
    components := c.components.map (fun e => (.unresolved e.1, .unresolved e.2)) }

/-- `Message::from_project` (modelled from the spec §4.5 step 7). -/
def Message.from_project (data : ItemData) (m : ManifestMessage) : Message :=
  { data, description := m.description,
    fields := m.fields.map (fun e => (e.1, .unresolved e.2)) }

/-- `Type::from_project_enum` (modelled from the spec §4.5 step 7). -/
def Ty.from_project_enum (data : ItemData) (e : ManifestEnum) : Ty :=
  { data, inner := .enum e.members }

/-- `ItemMap::get_or_create_scope_mut` (modelled from the spec §4.3):
walk `segs` from `start`, creating missing intermediate scopes with the
walked scope's source, the enclosing scope as parent, the segment as id,
the provided `manifest_path`, and no manifest. The arena state is
returned alongside the result, as the Rust method mutates in place. -/
def get_or_create_scope_mut (items : ItemMap) (manifest_path : FsPath)
    (start : Nat) : List String → ItemMap × Except LoadError Nat
  | [] => (items, .ok start)
  | seg :: rest =>
    match items.get start with
    | some (.scope sc) =>
      match mapLookup sc.scopes seg with
      | some child => get_or_create_scope_mut items manifest_path child rest
      | none =>
        match modifyScope
            (items.add (.scope (Scope.new
              { parent_id := some start, id := seg,
                source := sc.data.source }
              seg (some manifest_path) none))).1 start
            (fun s => { s with scopes := (mapInsert s.scopes seg
              (items.add (.scope (Scope.new
                { parent_id := some start, id := seg,
                  source := sc.data.source }
                seg (some manifest_path) none))).2) }) with
        | .error e =>
          ((items.add (.scope (Scope.new
            { parent_id := some start, id := seg,
              source := sc.data.source }
            seg (some manifest_path) none))).1, .error e)
        | .ok items2 =>
          get_or_create_scope_mut items2 manifest_path
            (items.add (.scope (Scope.new
              { parent_id := some start, id := seg,
                source := sc.data.source }
              seg (some manifest_path) none))).2 rest
    | _ => (items, .error .internalError)

instance {ε α : Type} [DecidableEq ε] [DecidableEq α] :
    DecidableEq (Except ε α) := fun x y =>
  match x, y with
  | .ok a, .ok b =>
    if h : a = b then .isTrue (by rw [h])
    else .isFalse (by intro hc; cases hc; exact h rfl)
  | .error a, .error b =>
    if h : a = b then .isTrue (by rw [h])
    else .isFalse (by intro hc; cases hc; exact h rfl)
  | .ok _, .error _ => .isFalse (by intro hc; cases hc)
  | .error _, .ok _ => .isFalse (by intro hc; cases hc)

/-- The outcome of a loader call: the semantic graph and visited set as
left by the call (the Rust functions mutate them through `&mut` even on
failure), and the returned scope handle or error. -/
structure LoadOut where
  sem : Semantic
  visited : List FsPath
  res : Except LoadError Nat
deriving DecidableEq, Repr

/-- Thread state through a list, stopping at the first error (the `?`
propagation of the Rust `for` loops), collecting the successes. -/
def threadFold {α σ β : Type} (step : α → σ → σ × Except LoadError β) :
    List α → σ → σ × Except LoadError (List β)
  | [], s => (s, .ok [])
  | a :: rest, s =>
    match (step a s).2 with
    | .error e => ((step a s).1, .error e)
    | .ok b =>
      match (threadFold step rest (step a s).1).2 with
      | .error e => ((threadFold step rest (step a s).1).1, .error e)
      | .ok bs => ((threadFold step rest (step a s).1).1, .ok (b :: bs))

/-- The shape of the recursive entry `add_scope_from_manifest` presents
to the wrapper bodies below. -/
abbrev ScopeLoader :=
  FileProvider → Option Nat → Semantic → List FsPath → Manifest → FsPath →
    String → ItemSource → LoadOut

/-- The body of `Semantic::add_file_internal`, parameterized by the
recursive entry: read and parse the file, check the root's children for
an existing scope of the effective name (idempotent re-add /
`DuplicateScope`), otherwise build the scope from the manifest and
register it under the root. -/
def add_file_internal_go (recurse : ScopeLoader) (s : Semantic)
    (filename : FsPath) (file_provider : FileProvider)
    (visited_files : List FsPath) (source : ItemSource)
    (scope_name : Option String) : LoadOut :=
  match file_provider.get filename with
  | none =>
    ⟨s, visited_files, .error (.readError (file_provider.full_path filename))⟩
  | some content =>
    match Manifest.parse content with
    | .error msg =>
      ⟨s, visited_files,
        .error (.parseError (file_provider.full_path filename) msg)⟩
    | .ok manifest =>
      let root_id := s.root_scope_id
      match s.items.get root_id with
      | some (.scope root_sc) =>
        let scope_name := scope_name.getD manifest.ember.id
        match mapLookup root_sc.scopes scope_name with
        | some existing_scope_id =>
          match s.items.get existing_scope_id with
          | some (.scope existing) =>
            if existing.manifest_path = some (file_provider.full_path filename)
            then ⟨s, visited_files, .ok existing_scope_id⟩
            else ⟨s, visited_files,
              .error (.duplicateScope scope_name
                (file_provider.full_path filename))⟩
          | _ => ⟨s, visited_files, .error .internalError⟩
        | none =>
          let manifest_path := file_provider.full_path filename
          let out := recurse file_provider (some root_id) s visited_files
            manifest manifest_path scope_name source
          match out.res with
          | .error e => ⟨out.sem, out.visited, .error e⟩
          | .ok item_id =>
            match modifyScope out.sem.items root_id
                (fun sc =>
                  { sc with scopes := mapInsert sc.scopes scope_name item_id })
              with
            | .error e => ⟨out.sem, out.visited, .error e⟩
            | .ok items' =>
              ⟨{ out.sem with items := items' }, out.visited, .ok item_id⟩
      | _ => ⟨s, visited_files, .error .internalError⟩

/-- The body of `Semantic::add_file_at_non_toplevel`, parameterized by
the recursive entry: read and parse the file, then build its scope under
`parent_scope` with the child manifest's own ember id. -/
def add_file_at_non_toplevel_go (recurse : ScopeLoader) (s : Semantic)
    (parent_scope : Nat) (filename : FsPath) (file_provider : FileProvider)
    (visited_files : List FsPath) (source : ItemSource) : LoadOut :=
  match file_provider.get filename with
  | none =>
    ⟨s, visited_files, .error (.readError (file_provider.full_path filename))⟩
  | some content =>
    match Manifest.parse content with
    | .error msg =>
      ⟨s, visited_files,
        .error (.parseError (file_provider.full_path filename) msg)⟩
    | .ok manifest =>
      recurse file_provider (some parent_scope) s visited_files manifest
        (file_provider.full_path filename) manifest.ember.id source

/-- One step of the `includes` loop of `add_scope_from_manifest`: load
the included file as a non-top-level child of the current scope and
register the child under its own id. -/
def includeStep (recurse : ScopeLoader) (file_provider : FileProvider)
    (scope_id : Nat) (source : ItemSource) (include_ : FsPath)
    (sv : Semantic × List FsPath) :
    (Semantic × List FsPath) × Except LoadError Unit :=
  let out := add_file_at_non_toplevel_go recurse sv.1 scope_id include_
    file_provider sv.2 source
  match out.res with
  | .error e => ((out.sem, out.visited), .error e)
  | .ok child_scope_id =>
    match out.sem.items.get child_scope_id with
    | some (.scope child) =>
      match modifyScope out.sem.items scope_id
          (fun sc => { sc with
            scopes := mapInsert sc.scopes child.data.id child_scope_id }) with
      | .error e => ((out.sem, out.visited), .error e)
      | .ok items' => (({ out.sem with items := items' }, out.visited), .ok ())
    | _ => ((out.sem, out.visited), .error .internalError)

/-- One step of the dependency loop of `add_scope_from_manifest`: build
a `ProxyFileProvider` rebased at the dependency's path and call the
top-level loader on `ambient.toml` with the dependency's name as scope
name and the same source, wrapping failures in the dependency context. -/
def dependencyStep (recurse : ScopeLoader) (file_provider : FileProvider)
    (source : ItemSource) (dep : String × Dependency)
    (sv : Semantic × List FsPath) :
    (Semantic × List FsPath) × Except LoadError Nat :=
  match dep.2 with
  | .path path =>
    let out := add_file_internal_go recurse sv.1 ["ambient.toml"]
      (ProxyFileProvider file_provider path) sv.2 source (some dep.1)
    match out.res with
    | .error e => ((out.sem, out.visited), .error (.dependencyFailed dep.1 e))
    | .ok new_scope_id => ((out.sem, out.visited), .ok new_scope_id)

/-- One step of the component loop of `add_scope_from_manifest`: add the
component item, create or reuse the scope chain of its dotted path, and
register it under its final (snake-case) segment. -/
def componentStep (scope_id : Nat) (source : ItemSource)
    (manifest_path : FsPath) (entry : IdentPath × ManifestComponent)
    (items : ItemMap) : ItemMap × Except LoadError Unit :=
  let itemsA := (items.add (.component (Component.from_project
    { parent_id := some scope_id, id := entry.1.item, source } entry.2))).1
  let value := (items.add (.component (Component.from_project
    { parent_id := some scope_id, id := entry.1.item, source } entry.2))).2
  let gocsRes := get_or_create_scope_mut itemsA manifest_path scope_id
    entry.1.scopeSegs
  match gocsRes.2 with
  | .error e => (gocsRes.1, .error e)
  | .ok target =>
    match modifyScope gocsRes.1 target
        (fun sc => { sc with
          components := mapInsert sc.components entry.1.item value }) with
    | .error e => (gocsRes.1, .error e)
    | .ok itemsC => (itemsC, .ok ())

/-- One step of the concept loop of `add_scope_from_manifest`. -/
def conceptStep (scope_id : Nat) (source : ItemSource)
    (manifest_path : FsPath) (entry : IdentPath × ManifestConcept)
    (items : ItemMap) : ItemMap × Except LoadError Unit :=
  let itemsA := (items.add (.concept (Concept.from_project
    { parent_id := some scope_id, id := entry.1.item, source } entry.2))).1
  let value := (items.add (.concept (Concept.from_project
    { parent_id := some scope_id, id := entry.1.item, source } entry.2))).2
  let gocsRes := get_or_create_scope_mut itemsA manifest_path scope_id
    entry.1.scopeSegs
  match gocsRes.2 with
  | .error e => (gocsRes.1, .error e)
  | .ok target =>
    match modifyScope gocsRes.1 target
        (fun sc => { sc with
          concepts := mapInsert sc.concepts entry.1.item value }) with
    | .error e => (gocsRes.1, .error e)
    | .ok itemsC => (itemsC, .ok ())

/-- One step of the message loop of `add_scope_from_manifest`. -/
def messageStep (scope_id : Nat) (source : ItemSource)
    (manifest_path : FsPath) (entry : IdentPath × ManifestMessage)
    (items : ItemMap) : ItemMap × Except LoadError Unit :=
  let itemsA := (items.add (.message (Message.from_project
    { parent_id := some scope_id, id := entry.1.item, source } entry.2))).1
  let value := (items.add (.message (Message.from_project
    { parent_id := some scope_id, id := entry.1.item, source } entry.2))).2
  let gocsRes := get_or_create_scope_mut itemsA manifest_path scope_id
    entry.1.scopeSegs
  match gocsRes.2 with
  | .error e => (gocsRes.1, .error e)
  | .ok target =>
    match modifyScope gocsRes.1 target
        (fun sc => { sc with
          messages := mapInsert sc.messages entry.1.item value }) with
    | .error e => (gocsRes.1, .error e)
    | .ok itemsC => (itemsC, .ok ())

/-- One step of the enum loop of `add_scope_from_manifest`: enums are
local — the new `Type` is registered in the current scope's `types`
without any scope-path split. -/
def enumStep (scope_id : Nat) (source : ItemSource)
    (entry : String × ManifestEnum) (items : ItemMap) :
    ItemMap × Except LoadError Unit :=
  let itemsA := (items.add (.ty (Ty.from_project_enum
    { parent_id := some scope_id, id := entry.1, source } entry.2))).1
  let enum_id := (items.add (.ty (Ty.from_project_enum
    { parent_id := some scope_id, id := entry.1, source } entry.2))).2
  match modifyScope itemsA scope_id
      (fun sc => { sc with types := mapInsert sc.types entry.1 enum_id }) with
  | .error e => (itemsA, .error e)
  | .ok itemsB => (itemsB, .ok ())

/-- `Semantic::add_scope_from_manifest`: create the scope, cycle-check
its canonical path against `visited_files`, load includes and
dependencies recursively, then add the manifest's components, concepts,
messages and enums, removing the canonical path from the visited set on
the way out. -/
def add_scope_from_manifest_body (recurse : ScopeLoader) : ScopeLoader :=
    fun file_provider parent_id s visited_files manifest manifest_path id
        source =>
    let scope := Scope.new { parent_id, id, source } manifest.ember.id
      (some manifest_path) (some manifest)
    let items0 := (s.items.add (.scope scope)).1
    let scope_id := (s.items.add (.scope scope)).2
    let s0 : Semantic := { s with items := items0 }
    let full_path := file_provider.full_path manifest_path
    if full_path ∈ visited_files then
      ⟨s0, visited_files, .error (.circularInclude manifest_path visited_files)⟩
    else
      let visited0 := visited_files ++ [full_path]
      let incRes := threadFold
        (includeStep recurse file_provider scope_id source)
        manifest.ember.includes (s0, visited0)
      match incRes.2 with
      | .error e => ⟨incRes.1.1, incRes.1.2, .error e⟩
      | .ok _ =>
        let depRes := threadFold
          (dependencyStep recurse file_provider source)
          manifest.dependencies incRes.1
        match depRes.2 with
        | .error e => ⟨depRes.1.1, depRes.1.2, .error e⟩
        | .ok dependency_scopes =>
          match modifyScope depRes.1.1.items scope_id
              (fun sc => { sc with
                dependencies := sc.dependencies ++ dependency_scopes }) with
          | .error e => ⟨depRes.1.1, depRes.1.2, .error e⟩
          | .ok items1 =>
            let compRes := threadFold
              (componentStep scope_id source manifest_path)
              manifest.components items1
            match compRes.2 with
            | .error e =>
              ⟨{ depRes.1.1 with items := compRes.1 }, depRes.1.2, .error e⟩
            | .ok _ =>
              let conRes := threadFold
                (conceptStep scope_id source manifest_path)
                manifest.concepts compRes.1
              match conRes.2 with
              | .error e =>
                ⟨{ depRes.1.1 with items := conRes.1 }, depRes.1.2, .error e⟩
              | .ok _ =>
                let msgRes := threadFold
                  (messageStep scope_id source manifest_path)
                  manifest.messages conRes.1
                match msgRes.2 with
                | .error e =>
                  ⟨{ depRes.1.1 with items := msgRes.1 }, depRes.1.2, .error e⟩
                | .ok _ =>
                  let enumRes := threadFold (enumStep scope_id source)
                    manifest.enums msgRes.1
                  match enumRes.2 with
                  | .error e =>
                    ⟨{ depRes.1.1 with items := enumRes.1 }, depRes.1.2,
                      .error e⟩
                  | .ok _ =>
                    ⟨{ depRes.1.1 with items := enumRes.1 },
                      depRes.1.2.erase full_path, .ok scope_id⟩


/-- The base of the recursion-depth budget: no Rust counterpart; a call
that runs out of budget reports `fuelExhausted` and leaves the state
unchanged. -/
def scopeLoaderOutOfFuel : ScopeLoader :=
  fun _ _ s visited _ _ _ _ => ⟨s, visited, .error .fuelExhausted⟩

/-- `Semantic::add_scope_from_manifest`, as the `fuel`-indexed iteration
of its body; defined by `Nat.rec` so that concrete runs reduce in the
kernel. -/
def add_scope_from_manifest (fuel : Nat) : ScopeLoader :=
  Nat.rec (motive := fun _ => ScopeLoader)
    scopeLoaderOutOfFuel
    (fun _ ih => add_scope_from_manifest_body ih)
    fuel

/-- Unfolding lemma: at zero budget the loader reports exhaustion. -/
theorem add_scope_from_manifest_zero :
    add_scope_from_manifest 0 = scopeLoaderOutOfFuel := rfl

/-- Unfolding lemma: at positive budget the loader runs its body with
the recursion knot tied one budget lower. -/
theorem add_scope_from_manifest_succ (n : Nat) :
    add_scope_from_manifest (n + 1) =
      add_scope_from_manifest_body (add_scope_from_manifest n) := rfl

/-- `Semantic::add_file_internal`, with the embedding's recursion-depth
budget. -/
def add_file_internal (fuel : Nat) (s : Semantic) (filename : FsPath)
    (file_provider : FileProvider) (visited_files : List FsPath)
    (source : ItemSource) (scope_name : Option String) : LoadOut :=
  add_file_internal_go (add_scope_from_manifest fuel) s filename
    file_provider visited_files source scope_name

/-- `Semantic::add_file`: top-level entry, starting from an empty
visited set. -/
def add_file (fuel : Nat) (s : Semantic) (filename : FsPath)
    (file_provider : FileProvider) (source : ItemSource)
    (scope_name : Option String) : LoadOut :=
  add_file_internal fuel s filename file_provider [] source scope_name

/-- `Semantic::add_ember`: read `ambient.toml` from a filesystem
directory with user source. -/
def add_ember (fuel : Nat) (fs : FsPath → Option (Except String Manifest))
    (s : Semantic) (ember_path : FsPath) : LoadOut :=
  add_file fuel s ["ambient.toml"] (DiskFileProvider fs ember_path) .user none

/-- Modelled from the spec: the built-in schema manifest embedded in
`ambient_schema::FILES` (not under `src/`); the spec records only that
the built-in schema is a manifest loaded first with `Ambient` source
(§4.5), so it is modelled as a manifest declaring only its ember id. -/
def schemaManifest : Manifest :=
  { ember := { id := "ambient_core", includes := [] }, dependencies := [],
    components := [], concepts := [], messages := [], enums := [] }

/-- `ArrayFileProvider::from_schema`: the provider over the built-in
schema files. -/
def ArrayFileProvider.from_schema : FileProvider :=
  ArrayFileProvider [(["ambient.toml"], .ok schemaManifest)]

/-- Modelled from the spec: `ambient_project::activate_identifier_bans`
(not under `src/`): the process-wide identifier-ban flag transitions
`off → on` and never back; repeated activations are no-ops. -/
def activate_identifier_bans (_flag : Bool) : Bool := true

/-- `Semantic::new`, threading the process-wide identifier-ban flag
explicitly: bootstrap the root scope, load the built-in schema manifest
with `Ambient` source, then activate identifier bans. The flag is
returned alongside the result. -/
def Semantic.newWithBans (fuel : Nat) (bans : Bool) :
    Except LoadError Semantic × Bool :=
  match create_root_scope ItemMap.empty with
  | .error e => (.error e, bans)
  | .ok (items, root_scope_id, standard_definitions) =>
    let semantic : Semantic := { items, root_scope_id, standard_definitions }
    let out := add_file fuel semantic ["ambient.toml"]
      ArrayFileProvider.from_schema .ambient none
    match out.res with
    | .error e => (.error e, bans)
    | .ok _ => (.ok out.sem, activate_identifier_bans bans)

/-- `Semantic::new`: the semantic graph it produces. -/
def Semantic.new (fuel : Nat) : Except LoadError Semantic :=
  (Semantic.newWithBans fuel false).1

/-! ### The semantic resolver

The resolver lives in the crate's missing submodules; everything below
is modelled from the spec (§4.2, §4.4, §4.6). -/

/-- The expected item kind of a reference (the phantom tag of
`ResolvableItemId<T>`). -/
inductive ItemKind where
  | component | concept | message | ty | attribute
deriving DecidableEq, Repr

/-- Modelled from the spec: errors of the resolution phase (§7). -/
inductive ResolveError where
  | unresolvedReference (p : IdentPath)
  | unresolvedValue (token : String)
  | typeMismatch
  | dangling
  | fuelExhausted
deriving DecidableEq, Repr

/-- The container of a scope appropriate to an expected item kind
(spec §4.4 step 2b). -/
def containerFor (sc : Scope) : ItemKind → SMap
  | .component => sc.components
  | .concept => sc.concepts
  | .message => sc.messages
  | .ty => sc.types
  | .attribute => sc.attributes

/-- Modelled from the spec (§4.4 step 2a): walk a path's scope segments
through the `scopes` mappings. -/
def walkScopes (items : ItemMap) (start : Nat) : List String → Option Nat
  | [] => some start
  | seg :: rest =>
    match items.get start with
    | some (.scope sc) =>
      match mapLookup sc.scopes seg with
      | some child => walkScopes items child rest
      | none => none
    | _ => none

/-- Modelled from the spec (§4.4 step 2): look a path up from one
starting scope — own containers first, then the scope's `dependencies`
in order; `fuel` bounds the dependency chain. -/
def lookup_in_chain (fuel : Nat) (items : ItemMap) (start : Nat)
    (p : IdentPath) (kind : ItemKind) : Option Nat :=
  Nat.rec (motive := fun _ => Nat → Option Nat)
    (fun _ => none)
    (fun _ ih st =>
      match walkScopes items st p.scopeSegs with
      | some scId =>
        match items.get scId with
        | some (.scope sc) =>
          match mapLookup (containerFor sc kind) p.item with
          | some hit => some hit
          | none =>
            (match items.get st with
             | some (.scope stSc) => stSc.dependencies.findSome? ih
             | _ => none)
        | _ => none
      | none =>
        (match items.get st with
         | some (.scope stSc) => stSc.dependencies.findSome? ih
         | _ => none))
    fuel start

/-- Modelled from the spec (§4.4): name lookup over the context of
enclosing scopes, with the root fallback for types and attributes. -/
def context_lookup (fuel : Nat) (items : ItemMap) (context : List Nat)
    (root : Nat) (p : IdentPath) (kind : ItemKind) : Option Nat :=
  match context.findSome? (fun st => lookup_in_chain fuel items st p kind) with
  | some hit => some hit
  | none =>
    if kind = .ty ∨ kind = .attribute then
      lookup_in_chain fuel items root p kind
    else none

/-- Modelled from the spec: resolve a `ResolvableItemId` of the given
kind, failing with `UnresolvedReference` when the lookup exhausts all
starting scopes; a `Resolved` arm passes through. -/
def resolveRef (fuel : Nat) (items : ItemMap) (context : List Nat)
    (root : Nat) (kind : ItemKind) :
    ResolvableItemId → Except ResolveError ResolvableItemId
  | .resolved h => .ok (.resolved h)
  | .unresolved p =>
    match context_lookup fuel items context root p kind with
    | some h => .ok (.resolved h)
    | none => .error (.unresolvedReference p)

/-- Modelled from the spec (§6 textual type expressions): resolve a
component's type position;  `Vec<...>` and `Option<...>` wrap the
resolved inner path in a fresh `Type` item. -/
def resolveTypeExpr (fuel : Nat) (items : ItemMap) (context : List Nat)
    (root : Nat) : ResolvableType →
      Except ResolveError (ItemMap × ResolvableType)
  | .resolved h => .ok (items, .resolved h)
  | .unresolved (.named p) =>
    match context_lookup fuel items context root p .ty with
    | some h => .ok (items, .resolved h)
    | none => .error (.unresolvedReference p)
  | .unresolved (.vecOf p) =>
    match context_lookup fuel items context root p .ty with
    | some h =>
      let (items1, vecId) := items.add (.ty (Ty.new
        { parent_id := some root, id := "", source := .system }
        (.vec (.resolved h))))
      .ok (items1, .resolved vecId)
    | none => .error (.unresolvedReference p)
  | .unresolved (.optionOf p) =>
    match context_lookup fuel items context root p .ty with
    | some h =>
      let (items1, optId) := items.add (.ty (Ty.new
        { parent_id := some root, id := "", source := .system }
        (.option (.resolved h))))
      .ok (items1, .resolved optId)
    | none => .error (.unresolvedReference p)

/-- Modelled from the spec (§4.2): resolve a textual value against its
resolved expected type; an enum variant token must name a member of the
target enum, anything else passes through as resolved. -/
def resolveValue (items : ItemMap) (expected : ResolvableType) :
    ResolvableValue → Except ResolveError ResolvableValue
  | .resolved t => .ok (.resolved t)
  | .unresolved token =>
    match expected with
    | .resolved h =>
      match items.get h with
      | some (.ty t) =>
        match t.inner with
        | .enum members =>
          if members.any (fun m => m.1 = token) then .ok (.resolved token)
          else .error (.unresolvedValue token)
        | _ => .ok (.resolved token)
      | _ => .error .dangling
    | .unresolved _ => .error (.unresolvedValue token)

/-- Modelled from the spec (§4.6): resolve a component — its type, each
attribute, and its default against the resolved type. -/
def resolveComponent (fuel : Nat) (items : ItemMap) (context : List Nat)
    (root : Nat) (c : Component) : Except ResolveError (ItemMap × Component) := do
  let (items1, type_) ← resolveTypeExpr fuel items context root c.type_
  let attributes ← c.attributes.mapM
    (resolveRef fuel items1 context root .attribute)
  let default ← match c.default with
    | none => pure none
    | some v => do pure (some (← resolveValue items1 type_ v))
  return (items1, { c with type_, attributes, default })

/-- Modelled from the spec (§4.6): resolve a concept — its `extends`
entries, then inherit each ancestor's components (own entries win,
earlier `extends` dominate), then resolve the component references and
values. -/
def resolveConcept (fuel : Nat) (items : ItemMap) (context : List Nat)
    (root : Nat) (c : Concept) : Except ResolveError Concept := do
  let extends_ ← c.extends_.mapM (resolveRef fuel items context root .concept)
  let own ← c.components.mapM (fun e => do
    let r ← resolveRef fuel items context root .component e.1
    pure (r, e.2))
  let inherited := extends_.foldl
    (fun acc anc =>
      match anc with
      | .resolved h =>
        match items.get h with
        | some (.concept ancC) =>
          acc ++ ancC.components.filter
            (fun e => ¬ (acc.any (fun o => o.1 = e.1)))
        | _ => acc
      | .unresolved _ => acc)
    own
  return { c with extends_, components := inherited }

/-- Modelled from the spec (§4.6): resolve a message's field types. -/
def resolveMessage (fuel : Nat) (items : ItemMap) (context : List Nat)
    (root : Nat) (m : Message) : Except ResolveError (ItemMap × Message) := do
  let (items', fields) ← m.fields.foldlM
    (fun (acc : ItemMap × List (String × ResolvableType)) e => do
      let (items', rt) ← resolveTypeExpr fuel acc.1 context root e.2
      pure (items', acc.2 ++ [(e.1, rt)]))
    (items, [])
  return (items', { m with fields })

/-- Modelled from the spec (§4.6): resolve a type — `Vec` and `Option`
resolve their inner element type, `Enum` and `Primitive` are terminal. -/
def resolveTy (fuel : Nat) (items : ItemMap) (context : List Nat)
    (root : Nat) (t : Ty) : Except ResolveError (ItemMap × Ty) := do
  match t.inner with
  | .primitive pt => return (items, { t with inner := .primitive pt })
  | .enum ms => return (items, { t with inner := .enum ms })
  | .vec inner => do
    let (items', inner') ← resolveTypeExpr fuel items context root inner
    return (items', { t with inner := .vec inner' })
  | .option inner => do
    let (items', inner') ← resolveTypeExpr fuel items context root inner
    return (items', { t with inner := .option inner' })

/-- The shape of the recursive resolver entry: arena, enclosing-scope
context, root handle, item handle. -/
abbrev Resolver :=
  ItemMap → List Nat → Nat → Nat → Except ResolveError ItemMap

/-- Modelled from the spec (§4.3 `resolve_clone`, §4.6): clone the item
out, resolve it — a scope by visiting its children first, then its own
items — and write it back. -/
def resolve_clone_body (recurse : Resolver) : Resolver :=
  fun items context root id =>
  match items.get id with
  | none => .error .dangling
  | some item =>
    match item with
    | .attribute _ => .ok items
    | .component c => do
      let (items1, c') ← resolveComponent 32 items context root c
      match modifyItem items1 id (.component c') with
      | some items2 => .ok items2
      | none => .error .dangling
    | .concept c => do
      let c' ← resolveConcept 32 items context root c
      match modifyItem items id (.concept c') with
      | some items2 => .ok items2
      | none => .error .dangling
    | .message m => do
      let (items1, m') ← resolveMessage 32 items context root m
      match modifyItem items1 id (.message m') with
      | some items2 => .ok items2
      | none => .error .dangling
    | .ty t => do
      let (items1, t') ← resolveTy 32 items context root t
      match modifyItem items1 id (.ty t') with
      | some items2 => .ok items2
      | none => .error .dangling
    | .scope sc => do
      let context' := id :: context
      let items1 ← sc.scopes.foldlM
        (fun acc e => recurse acc context' root e.2) items
      let items2 ← sc.components.foldlM
        (fun acc e => recurse acc context' root e.2) items1
      let items3 ← sc.concepts.foldlM
        (fun acc e => recurse acc context' root e.2) items2
      let items4 ← sc.messages.foldlM
        (fun acc e => recurse acc context' root e.2) items3
      let items5 ← sc.types.foldlM
        (fun acc e => recurse acc context' root e.2) items4
      .ok items5

/-- `resolve_clone`, iterated over the embedding's recursion budget. -/
def resolve_clone (fuel : Nat) : Resolver :=
  Nat.rec (motive := fun _ => Resolver)
    (fun _ _ _ _ => .error .fuelExhausted)
    (fun _ ih => resolve_clone_body ih)
    fuel

/-- `Semantic::resolve` (modelled from the spec §4.6): resolve-clone
each of the root's immediate child scopes. -/
def Semantic.resolve (fuel : Nat) (s : Semantic) :
    Except ResolveError Semantic :=
  match s.items.get s.root_scope_id with
  | some (.scope rootSc) =>
    (rootSc.scopes.foldlM
      (fun acc e => resolve_clone fuel acc [s.root_scope_id]
        s.root_scope_id e.2)
      s.items).map
      (fun items => { s with items })
  | _ => .error .dangling

/-! ### Helper accessors shared by the theorems below -/

/-- The scope stored at a handle, if any. -/
def getScope (items : ItemMap) (i : Nat) : Option Scope :=
  match items.get i with
  | some (.scope sc) => some sc
  | _ => none

/-- The root scope's child-scope mapping. -/
def rootScopes (s : Semantic) : SMap :=
  match getScope s.items s.root_scope_id with
  | some sc => sc.scopes
  | none => []

/-- Extract the semantic graph from a construction result, with an empty
placeholder on error (the success of the construction is always asserted
separately wherever this is used). -/
def semanticOrEmpty (r : Except LoadError Semantic) : Semantic :=
  match r with
  | .ok s => s
  | .error _ =>
    { items := ItemMap.empty, root_scope_id := 0,
      standard_definitions := { attributes := ⟨0, 0, 0, 0, 0, 0⟩ } }

/-- The graph produced by `Semantic::new` (nonempty by
`Semantic.new 8 = .ok _`, proved where used). -/
def theSemantic : Semantic := semanticOrEmpty (Semantic.new 8)

/-! ### C9 -/

/-- C9: `add_ember(p)` behaves identically to
`add_file("ambient.toml", DiskFileProvider(p), ItemSource::User, None)`:
for every recursion budget, filesystem, prior state and directory path
the two calls produce the same outcome — the same returned scope handle,
the same resulting `Semantic` state, and the same error on failure. -/
theorem C9_add_ember_equiv (fuel : Nat)
    (fs : FsPath → Option (Except String Manifest)) (s : Semantic)
    (ember_path : FsPath) :
    add_ember fuel fs s ember_path =
      add_file fuel s ["ambient.toml"] (DiskFileProvider fs ember_path)
        .user none := rfl

/-! ### C6 -/

/-- C6: `create_root_scope` bootstraps the root: it returns a root scope
with empty id and `System` source, registers one `Type::Primitive` child
under the root for every entry of the closed primitive set keyed by its
PascalCase id, and registers exactly the six standard attributes
`Debuggable`, `Networked`, `Resource`, `MaybeResource`, `Store`, `Enum`
as root children, returning their handles in `StandardDefinitions`. -/
theorem C6_root_bootstrap :
    ∃ items sd rsc,
      create_root_scope ItemMap.empty = .ok (items, 0, sd) ∧
      items.get 0 = some (.scope rsc) ∧
      rsc.data.id = "" ∧ rsc.data.parent_id = none ∧
      rsc.data.source = .system ∧ rsc.original_id = "" ∧
      (∀ e ∈ primitive_definitions,
        ((mapLookup rsc.types e.1).bind items.get) =
          some (.ty (Ty.new
            { parent_id := some 0, id := e.1, source := .system }
            (.primitive e.2)))) ∧
      rsc.attributes =
        [("Debuggable", sd.attributes.debuggable),
         ("Networked", sd.attributes.networked),
         ("Resource", sd.attributes.resource),
         ("MaybeResource", sd.attributes.maybe_resource),
         ("Store", sd.attributes.store),
         ("Enum", sd.attributes.enum_)] ∧
      (∀ a ∈ rsc.attributes,
        items.get a.2 = some (.attribute
          ⟨{ parent_id := some 0, id := a.1, source := .system }⟩)) := by
  refine ⟨_, _, _, rfl, rfl, rfl, rfl, rfl, rfl, ?_, ?_, ?_⟩ <;> decide

/-! ### C8 -/

/-- The identifier-ban flag after `Semantic::new` is on exactly when the
construction succeeded, and otherwise untouched. -/
theorem newWithBans_flag (fuel : Nat) (b : Bool) :
    (Semantic.newWithBans fuel b).2 =
      if (Semantic.newWithBans fuel b).1.isOk then true else b := by
  unfold Semantic.newWithBans
  cases h1 : create_root_scope ItemMap.empty with
  | error e => simp [Except.isOk, Except.toBool]
  | ok out =>
    obtain ⟨items, root, sd⟩ := out
    cases h2 : (add_file fuel
        { items := items, root_scope_id := root, standard_definitions := sd }
        ["ambient.toml"] ArrayFileProvider.from_schema .ambient none).res with
    | error e => simp [h2, Except.isOk, Except.toBool]
    | ok v => simp [h2, Except.isOk, Except.toBool, activate_identifier_bans]

/-- C8: `Semantic::new` activates the process-wide identifier-ban flag:
activation turns the flag on from any state and repeated activations are
no-ops (so the flag never transitions back); when the built-in schema
manifest loads successfully `new` returns with the flag on, and when the
schema load fails `new` returns early with the flag untouched — so the
activation happens after the built-in schema is loaded and before `new`
returns. -/
theorem C8_identifier_ban_activation :
    (∀ b : Bool, activate_identifier_bans b = true) ∧
    (∀ b : Bool, activate_identifier_bans (activate_identifier_bans b) =
      activate_identifier_bans b) ∧
    (∀ fuel : Nat, (Semantic.newWithBans fuel false).1.isOk = true →
      (Semantic.newWithBans fuel false).2 = true) ∧
    (∀ (fuel : Nat) (b : Bool), (Semantic.newWithBans fuel b).1.isOk = false →
      (Semantic.newWithBans fuel b).2 = b) := by
  refine ⟨fun _ => rfl, fun _ => rfl, fun fuel h => ?_, fun fuel b h => ?_⟩
  · rw [newWithBans_flag, h]; rfl
  · rw [newWithBans_flag, h]; rfl

/-- Witness for C8: the activation instances at concrete inputs — the
flag flips on from `false`, a successful `new` (budget 8) ends with the
flag on, and a failing `new` (budget 0, flag already on) leaves the flag
as it was, i.e. still on. -/
theorem C8_identifier_ban_activation_witness :
    activate_identifier_bans false = true ∧
    (Semantic.newWithBans 8 false).2 = true ∧
    (Semantic.newWithBans 0 true).2 = true :=
  ⟨C8_identifier_ban_activation.1 false,
   C8_identifier_ban_activation.2.2.1 8 (by decide),
   C8_identifier_ban_activation.2.2.2 0 true (by decide)⟩

/-! ### Fixtures: a small concrete state with one loaded scope -/

/-- A manifest declaring only the ember id `demo`. -/
def demoManifest : Manifest :=
  { ember := { id := "demo", includes := [] }, dependencies := [],
    components := [], concepts := [], messages := [], enums := [] }

/-- The root scope of the fixture state, with one child scope `demo`. -/
def demoRootScope : Scope :=
  { data := { parent_id := none, id := "", source := .system },
    original_id := "", manifest_path := none, manifest := none,
    scopes := [("demo", 1)], components := [], concepts := [],
    messages := [], types := [], attributes := [], dependencies := [] }

/-- The `demo` child scope of the fixture state, loaded from
`d/ambient.toml`. -/
def demoChildScope : Scope :=
  { data := { parent_id := some 0, id := "demo", source := .user },
    original_id := "demo", manifest_path := some ["d", "ambient.toml"],
    manifest := some demoManifest,
    scopes := [], components := [], concepts := [], messages := [],
    types := [], attributes := [], dependencies := [] }

/-- A small concrete semantic state: a root with one child scope `demo`
whose manifest was read from `d/ambient.toml`. -/
def demoSemantic : Semantic :=
  { items := ⟨[.scope demoRootScope, .scope demoChildScope]⟩,
    root_scope_id := 0,
    standard_definitions := { attributes := ⟨0, 0, 0, 0, 0, 0⟩ } }

/-- A provider rooted at `d` whose every read fails (file removed). -/
def ghostProvider : FileProvider :=
  { get := fun _ => none, full_path := fun p => joinPath ["d"] p }

/-- A provider rooted at `d` whose every read yields unparsable text. -/
def badParseProvider : FileProvider :=
  { get := fun _ => some (.error "bad toml"),
    full_path := fun p => joinPath ["d"] p }

/-- A provider rooted at `d` carrying the `demo` manifest. -/
def demoProvider : FileProvider :=
  { get := fun p => if p = ["ambient.toml"] then some (.ok demoManifest) else none,
    full_path := fun p => joinPath ["d"] p }

/-- The same files as `demoProvider`, but rooted at `e` (a different
canonical location). -/
def demoProviderElsewhere : FileProvider :=
  { get := fun p => if p = ["ambient.toml"] then some (.ok demoManifest) else none,
    full_path := fun p => joinPath ["e"] p }

/-! ### C10 -/

/-- C10: `add_file` reads through the provider and parses before any
check of the root's children: for every state — in particular one where
an identical scope already exists — a provider read failure makes the
call fail with the read error, and unparsable content with the parse
error, the state left untouched; the existing handle is never returned. -/
theorem C10_read_parse_precede_scope_check (fuel : Nat) (s : Semantic)
    (f : FsPath) (P : FileProvider) (src : ItemSource) (n : Option String) :
    (P.get f = none →
      add_file fuel s f P src n =
        ⟨s, [], .error (.readError (P.full_path f))⟩) ∧
    (∀ msg, P.get f = some (.error msg) →
      add_file fuel s f P src n =
        ⟨s, [], .error (.parseError (P.full_path f) msg)⟩) := by
  constructor
  · intro h
    unfold add_file add_file_internal add_file_internal_go
    rw [h]
  · intro msg h
    unfold add_file add_file_internal add_file_internal_go
    rw [h]
    rfl

/-- Witness for C10: on the fixture state, whose root-child `demo` was
loaded from exactly the path the provider canonicalizes to, a missing
file still yields the read error and bad content the parse error. -/
theorem C10_read_parse_precede_scope_check_witness :
    ghostProvider.get ["ambient.toml"] = none ∧
    add_file 8 demoSemantic ["ambient.toml"] ghostProvider .user (some "demo") =
      ⟨demoSemantic, [], .error (.readError ["d", "ambient.toml"])⟩ ∧
    badParseProvider.get ["ambient.toml"] = some (.error "bad toml") ∧
    add_file 8 demoSemantic ["ambient.toml"] badParseProvider .user (some "demo") =
      ⟨demoSemantic, [], .error (.parseError ["d", "ambient.toml"] "bad toml")⟩ :=
  ⟨rfl,
   (C10_read_parse_precede_scope_check 8 demoSemantic ["ambient.toml"]
     ghostProvider .user (some "demo")).1 rfl,
   rfl,
   (C10_read_parse_precede_scope_check 8 demoSemantic ["ambient.toml"]
     badParseProvider .user (some "demo")).2 "bad toml" rfl⟩

/-! ### C2 -/

/-- C2 counterexample: on `demoSemantic` the claim's hypotheses hold — a
root-child scope named `demo` exists and its `manifest_path` equals the
provider's canonical path for the file — yet `add_file` does not return
the existing scope's handle: the provider's read fails and so does the
call, refuting the claim's unconditional quantification over every
provider. -/
theorem C2_counterexample :
    (getScope demoSemantic.items 1).map (fun sc => sc.manifest_path) =
      some (some (ghostProvider.full_path ["ambient.toml"])) ∧
    mapLookup (rootScopes demoSemantic) "demo" = some 1 ∧
    (add_file 8 demoSemantic ["ambient.toml"] ghostProvider .user
        (some "demo")).res =
      .error (.readError ["d", "ambient.toml"]) :=
  ⟨rfl, rfl, rfl⟩

/-- C2 (amended): provided the provider read and the manifest parse
succeed, if a root-child scope under the effective name exists with
`manifest_path` equal to the canonical path then `add_file` returns the
existing handle and leaves the state (hence the arena cardinality)
unchanged, and if it exists with a different `manifest_path` the call
fails with `DuplicateScope`, again leaving the state unchanged. -/
theorem C2_idempotent_re_add (fuel : Nat) (s : Semantic) (f : FsPath)
    (P : FileProvider) (src : ItemSource) (nOpt : Option String)
    (m : Manifest) (rsc : Scope) (ex : Nat) (exSc : Scope)
    (hget : P.get f = some (.ok m))
    (hroot : s.items.get s.root_scope_id = some (.scope rsc))
    (hlook : mapLookup rsc.scopes (nOpt.getD m.ember.id) = some ex)
    (hex : s.items.get ex = some (.scope exSc)) :
    (exSc.manifest_path = some (P.full_path f) →
      add_file fuel s f P src nOpt = ⟨s, [], .ok ex⟩) ∧
    (exSc.manifest_path ≠ some (P.full_path f) →
      add_file fuel s f P src nOpt =
        ⟨s, [], .error (.duplicateScope (nOpt.getD m.ember.id)
          (P.full_path f))⟩) := by
  constructor <;> intro hp <;>
    (unfold add_file add_file_internal add_file_internal_go Manifest.parse
     simp only [hget, hroot, hlook, hex]
     simp [hp])

/-- Witness for C2 (amended): re-adding the `demo` manifest from its
original location returns the existing handle and changes nothing, and
adding the same-named manifest from a different location fails with
`DuplicateScope`. -/
theorem C2_idempotent_re_add_witness :
    add_file 8 demoSemantic ["ambient.toml"] demoProvider .user none =
      ⟨demoSemantic, [], .ok 1⟩ ∧
    add_file 8 demoSemantic ["ambient.toml"] demoProviderElsewhere .user none =
      ⟨demoSemantic, [], .error (.duplicateScope "demo" ["e", "ambient.toml"])⟩ :=
  ⟨(C2_idempotent_re_add 8 demoSemantic ["ambient.toml"] demoProvider .user
      none demoManifest demoRootScope 1 demoChildScope rfl rfl rfl rfl).1
      (by decide),
   (C2_idempotent_re_add 8 demoSemantic ["ambient.toml"] demoProviderElsewhere
      .user none demoManifest demoRootScope 1 demoChildScope rfl rfl rfl rfl).2
      (by decide)⟩

/-! ### C5 -/

/-- C5 counterexample: after `Semantic::new()` with zero user manifests
added, `root.scopes` is not empty — `new` itself loads the built-in
schema manifest as a root child, so the root has exactly one child
scope. -/
theorem C5_counterexample :
    (Semantic.new 8).toOption.map rootScopes = some [("ambient_core", 26)] ∧
    some [("ambient_core", 26)] ≠ some ([] : SMap) :=
  ⟨by decide, by decide⟩

/-- C5 (amended): after `Semantic::new()` with zero user manifests
added, the root scope contains the full primitive-type set and the six
standard attributes, `resolve()` succeeds, and `root.scopes` contains
exactly the built-in schema scope loaded by `new` (rather than being
empty). -/
theorem C5_empty_user_amended :
    ∃ s rsc schemaSc,
      Semantic.new 8 = .ok s ∧
      s.items.get s.root_scope_id = some (.scope rsc) ∧
      (∀ e ∈ primitive_definitions,
        ((mapLookup rsc.types e.1).bind s.items.get) =
          some (.ty (Ty.new
            { parent_id := some s.root_scope_id, id := e.1, source := .system }
            (.primitive e.2)))) ∧
      rsc.attributes =
        [("Debuggable", s.standard_definitions.attributes.debuggable),
         ("Networked", s.standard_definitions.attributes.networked),
         ("Resource", s.standard_definitions.attributes.resource),
         ("MaybeResource", s.standard_definitions.attributes.maybe_resource),
         ("Store", s.standard_definitions.attributes.store),
         ("Enum", s.standard_definitions.attributes.enum_)] ∧
      (s.resolve 8).isOk = true ∧
      rsc.scopes = [("ambient_core", 26)] ∧
      s.items.get 26 = some (.scope schemaSc) ∧
      schemaSc.original_id = "ambient_core" ∧
      schemaSc.data.source = .ambient ∧
      schemaSc.manifest_path = some ["ambient.toml"] := by
  refine ⟨_, _, _, rfl, rfl, ?_, ?_, ?_, ?_, rfl, ?_, ?_, ?_⟩ <;> decide

/-! ### C4 -/

/-- C4: while loading one manifest tree the loader canonicalizes each
manifest's path via `provider.full_path` and puts it into the visited
set before processing includes and dependencies: if the canonical path
is already present, loading fails at once with `CircularInclude`
carrying that manifest's path and the visited set; otherwise the
include processing (and, when there are no includes, the dependency
processing) observably runs against `visited ++ [canonical path]`. -/
theorem C4_cycle_detection (n : Nat) (P : FileProvider) (parent : Option Nat)
    (s : Semantic) (visited : List FsPath) (m : Manifest) (mpath : FsPath)
    (id : String) (src : ItemSource) :
    (P.full_path mpath ∈ visited →
      add_scope_from_manifest (n + 1) P parent s visited m mpath id src =
        ⟨{ s with items := (s.items.add (.scope (Scope.new
            { parent_id := parent, id := id, source := src }
            m.ember.id (some mpath) (some m)))).1 },
          visited, .error (.circularInclude mpath visited)⟩) ∧
    (∀ inc rest, P.full_path mpath ∉ visited →
      m.ember.includes = inc :: rest → P.get inc = none →
      (add_scope_from_manifest (n + 1) P parent s visited m mpath id
          src).visited = visited ++ [P.full_path mpath] ∧
      (add_scope_from_manifest (n + 1) P parent s visited m mpath id
          src).res = .error (.readError (P.full_path inc))) ∧
    (∀ dn dp rest, P.full_path mpath ∉ visited →
      m.ember.includes = [] → m.dependencies = (dn, .path dp) :: rest →
      (ProxyFileProvider P dp).get ["ambient.toml"] = none →
      (add_scope_from_manifest (n + 1) P parent s visited m mpath id
          src).visited = visited ++ [P.full_path mpath] ∧
      (add_scope_from_manifest (n + 1) P parent s visited m mpath id
          src).res = .error (.dependencyFailed dn
            (.readError ((ProxyFileProvider P dp).full_path
              ["ambient.toml"])))) := by
  refine ⟨fun hp => ?_, fun inc rest hn hi hg => ?_,
    fun dn dp rest hn hi hd hg => ?_⟩
  · rw [add_scope_from_manifest_succ]
    unfold add_scope_from_manifest_body
    simp [hp]
  · rw [add_scope_from_manifest_succ]
    unfold add_scope_from_manifest_body
    simp only [hi]
    simp [hn, threadFold, includeStep, add_file_at_non_toplevel_go, hg]
  · rw [add_scope_from_manifest_succ]
    unfold add_scope_from_manifest_body
    simp only [hi, hd]
    simp [hn, threadFold, dependencyStep, add_file_internal_go, hg]

/-! ### Fixtures: a circular include pair and a dependency manifest -/

/-- `ambient.toml` of the cycle scenario: ember `demo`, includes
`a.toml` (spec §8 scenario 5). -/
def circManifest : Manifest :=
  { ember := { id := "demo", includes := [["a.toml"]] }, dependencies := [],
    components := [], concepts := [], messages := [], enums := [] }

/-- `a.toml` of the cycle scenario: ember `demo_a`, includes
`ambient.toml` back. -/
def circManifestA : Manifest :=
  { ember := { id := "demo_a", includes := [["ambient.toml"]] },
    dependencies := [], components := [], concepts := [], messages := [],
    enums := [] }

/-- The provider holding the two mutually-including manifests. -/
def circProvider : FileProvider :=
  ArrayFileProvider
    [(["ambient.toml"], .ok circManifest), (["a.toml"], .ok circManifestA)]

/-- A manifest with no includes and one `Path` dependency named `lib`. -/
def depManifest : Manifest :=
  { ember := { id := "p", includes := [] },
    dependencies := [("lib", .path ["lib"])],
    components := [], concepts := [], messages := [], enums := [] }

/-- Witness for C4: the three observables at concrete inputs — a
manifest whose canonical path is already in the visited set fails at
once with `CircularInclude` carrying that path and the set; and when the
path is new, both the include processing and the dependency processing
observably run against the visited set extended with it. -/
theorem C4_cycle_detection_witness :
    ((["ambient.toml"] : FsPath) ∈ [(["ambient.toml"] : FsPath)]) ∧
    add_scope_from_manifest 8 circProvider (some 0) demoSemantic
        [["ambient.toml"]] circManifest ["ambient.toml"] "demo" .user =
      ⟨{ demoSemantic with items := (demoSemantic.items.add (.scope (Scope.new
          { parent_id := some 0, id := "demo", source := .user }
          "demo" (some ["ambient.toml"]) (some circManifest)))).1 },
        [["ambient.toml"]],
        .error (.circularInclude ["ambient.toml"] [["ambient.toml"]])⟩ ∧
    (add_scope_from_manifest 8 demoProvider (some 0) demoSemantic []
        circManifest ["x"] "demo" .user).visited = [["d", "x"]] ∧
    (add_scope_from_manifest 8 demoProvider (some 0) demoSemantic []
        circManifest ["x"] "demo" .user).res =
      .error (.readError ["d", "a.toml"]) ∧
    (add_scope_from_manifest 8 demoProvider (some 0) demoSemantic []
        depManifest ["x"] "p" .user).visited = [["d", "x"]] ∧
    (add_scope_from_manifest 8 demoProvider (some 0) demoSemantic []
        depManifest ["x"] "p" .user).res =
      .error (.dependencyFailed "lib" (.readError ["d", "lib", "ambient.toml"])) := by
  refine ⟨by decide, ?_, ?_, ?_, ?_, ?_⟩
  · exact (C4_cycle_detection 7 circProvider (some 0) demoSemantic
      [["ambient.toml"]] circManifest ["ambient.toml"] "demo" .user).1
      (by decide)
  · exact ((C4_cycle_detection 7 demoProvider (some 0) demoSemantic []
      circManifest ["x"] "demo" .user).2.1 ["a.toml"] [] (by decide) rfl
      rfl).1
  · exact ((C4_cycle_detection 7 demoProvider (some 0) demoSemantic []
      circManifest ["x"] "demo" .user).2.1 ["a.toml"] [] (by decide) rfl
      rfl).2
  · exact ((C4_cycle_detection 7 demoProvider (some 0) demoSemantic []
      depManifest ["x"] "p" .user).2.2 "lib" ["lib"] [] (by decide) rfl rfl
      rfl).1
  · exact ((C4_cycle_detection 7 demoProvider (some 0) demoSemantic []
      depManifest ["x"] "p" .user).2.2 "lib" ["lib"] [] (by decide) rfl rfl
      rfl).2

/-! ### C3 -/

/-- C3 counterexample: on the graph `Semantic::new` produced, adding the
mutually-including manifest pair fails with `CircularInclude` — but the
`Semantic` is not unchanged from before the call: the arena has gained
three orphaned scopes, refuting the atomicity clause. -/
theorem C3_counterexample :
    (Semantic.new 8).isOk = true ∧
    (add_file 8 theSemantic ["ambient.toml"] circProvider .user none).res =
      .error (.circularInclude ["ambient.toml"]
        [["ambient.toml"], ["a.toml"]]) ∧
    (add_file 8 theSemantic ["ambient.toml"] circProvider .user
        none).sem.items.size = theSemantic.items.size + 3 ∧
    theSemantic.items.size + 3 ≠ theSemantic.items.size :=
  ⟨by decide, by decide, by decide, by decide⟩

/-- Items already in the arena are unaffected by appending: lookups at
existing handles read the old entries. -/
theorem ItemMap.get_append (m : ItemMap) (l : List ItemValue) (i : Nat)
    (x : ItemValue) (h : m.get i = some x) :
    ItemMap.get ⟨m.items ++ l⟩ i = some x := by
  unfold ItemMap.get at h ⊢
  obtain ⟨hlt, -⟩ := List.getElem?_eq_some.mp h
  rw [List.getElem?_append_left hlt]
  exact h

/-- C3 (amended): failing on the mutually-including manifest pair, the
call errors with `CircularInclude` (carrying the re-visited path and the
visited set), registers nothing under the root — the root scope object,
and with it every mapping it holds, is exactly as before — but the arena
is not unchanged: it retains the three scopes created while descending
into the cycle. -/
theorem C3_circular_include_not_atomic (s : Semantic) (rsc : Scope)
    (h1 : s.items.get s.root_scope_id = some (.scope rsc))
    (h2 : mapLookup rsc.scopes "demo" = none) :
    (add_file 8 s ["ambient.toml"] circProvider .user none).res =
      .error (.circularInclude ["ambient.toml"]
        [["ambient.toml"], ["a.toml"]]) ∧
    (add_file 8 s ["ambient.toml"] circProvider .user
        none).sem.root_scope_id = s.root_scope_id ∧
    (add_file 8 s ["ambient.toml"] circProvider .user none).sem.items.get
      s.root_scope_id = some (.scope rsc) ∧
    (add_file 8 s ["ambient.toml"] circProvider .user
        none).sem.items.size = s.items.size + 3 := by
  have hrun : add_file 8 s ["ambient.toml"] circProvider .user none =
      ⟨{ s with items := ⟨((s.items.items ++
          [ItemValue.scope (Scope.new
            { parent_id := some s.root_scope_id, id := "demo",
              source := .user }
            "demo" (some ["ambient.toml"]) (some circManifest))]) ++
          [ItemValue.scope (Scope.new
            { parent_id := some s.items.items.length, id := "demo_a",
              source := .user }
            "demo_a" (some ["a.toml"]) (some circManifestA))]) ++
          [ItemValue.scope (Scope.new
            { parent_id := some ((s.items.items ++
                [ItemValue.scope (Scope.new
                  { parent_id := some s.root_scope_id, id := "demo",
                    source := .user }
                  "demo" (some ["ambient.toml"]) (some circManifest))]).length),
              id := "demo", source := .user }
            "demo" (some ["ambient.toml"]) (some circManifest))]⟩ },
        [["ambient.toml"], ["a.toml"]],
        .error (.circularInclude ["ambient.toml"]
          [["ambient.toml"], ["a.toml"]])⟩ := by
    unfold add_file add_file_internal add_file_internal_go
    rw [show circProvider.get ["ambient.toml"] =
      some (Except.ok circManifest) from rfl]
    simp only [Manifest.parse, h1, Option.getD]
    simp only [show circManifest.ember.id = "demo" from rfl, h2]
    rfl
  refine ⟨by rw [hrun], by rw [hrun], ?_, ?_⟩
  · rw [hrun]
    exact ItemMap.get_append _ _ _ _ (ItemMap.get_append _ _ _ _
      (ItemMap.get_append _ _ _ _ h1))
  · rw [hrun]
    simp [ItemMap.size, List.length_append]

/-- Witness for C3 (amended): the concrete run on the graph
`Semantic::new` produced. -/
theorem C3_circular_include_not_atomic_witness :
    (add_file 8 theSemantic ["ambient.toml"] circProvider .user none).res =
      .error (.circularInclude ["ambient.toml"]
        [["ambient.toml"], ["a.toml"]]) ∧
    (add_file 8 theSemantic ["ambient.toml"] circProvider .user
        none).sem.items.get theSemantic.root_scope_id =
      theSemantic.items.get theSemantic.root_scope_id ∧
    (add_file 8 theSemantic ["ambient.toml"] circProvider .user
        none).sem.items.size = theSemantic.items.size + 3 := by
  obtain ⟨ha, -, hc, hd⟩ :=
    C3_circular_include_not_atomic theSemantic
      (match getScope theSemantic.items 0 with
        | some sc => sc
        | none => demoRootScope)
      (by decide) (by decide)
  exact ⟨ha, by rw [hc]; decide, hd⟩

/-! ### Association-list map lemmas -/

/-- Looking up the freshly inserted key yields the inserted value. -/
theorem mapLookup_mapInsert_self (m : SMap) (k : String) (v : Nat) :
    mapLookup (mapInsert m k v) k = some v := by
  induction m with
  | nil => simp [mapInsert, mapLookup]
  | cons e rest ih =>
    obtain ⟨a, b⟩ := e
    by_cases ha : a = k
    · simp [mapInsert, ha, mapLookup]
    · simp [mapInsert, ha, mapLookup, ih]

/-- Inserting one key leaves the bindings of every other key as they
were. -/
theorem mapLookup_mapInsert_ne (m : SMap) (k : String) (v : Nat)
    (k' : String) (h : k' ≠ k) :
    mapLookup (mapInsert m k v) k' = mapLookup m k' := by
  induction m with
  | nil =>
    simp only [mapInsert, mapLookup]
    rw [if_neg (fun hc => h hc.symm)]
  | cons e rest ih =>
    obtain ⟨a, b⟩ := e
    by_cases ha : a = k
    · subst ha
      simp only [mapInsert, if_pos rfl, mapLookup]
      rw [if_neg (fun hc => h hc.symm), if_neg (fun hc => h hc.symm)]
    · simp only [mapInsert, if_neg ha, mapLookup]
      by_cases ha' : a = k'
      · rw [if_pos ha', if_pos ha']
      · rw [if_neg ha', if_neg ha', ih]

/-- Every entry of `mapInsert m k v` is the new binding or an old one. -/
theorem mem_mapInsert (m : SMap) (k : String) (v : Nat)
    (e : String × Nat) (h : e ∈ mapInsert m k v) : e = (k, v) ∨ e ∈ m := by
  induction m with
  | nil => simpa [mapInsert] using h
  | cons f rest ih =>
    obtain ⟨a, b⟩ := f
    by_cases hf : a = k
    · simp only [mapInsert, if_pos hf, List.mem_cons] at h
      rcases h with h | h
      · exact .inl h
      · exact .inr (List.mem_cons_of_mem _ h)
    · simp only [mapInsert, if_neg hf, List.mem_cons] at h
      rcases h with h | h
      · exact .inr (h ▸ List.mem_cons_self _ rest)
      · rcases ih h with h | h
        · exact .inl h
        · exact .inr (List.mem_cons_of_mem _ h)

/-- `mapInsert` keeps the keys duplicate-free. -/
theorem nodupKeys_mapInsert (m : SMap) (k : String) (v : Nat)
    (h : (m.map Prod.fst).Nodup) :
    ((mapInsert m k v).map Prod.fst).Nodup := by
  induction m with
  | nil => simp [mapInsert]
  | cons f rest ih =>
    obtain ⟨a, b⟩ := f
    simp only [List.map_cons, List.nodup_cons] at h
    by_cases hf : a = k
    · subst hf
      rw [show mapInsert ((a, b) :: rest) a v = (a, v) :: rest from by
        simp [mapInsert]]
      simp only [List.map_cons, List.nodup_cons]
      exact ⟨h.1, h.2⟩
    · simp only [mapInsert, if_neg hf, List.map_cons, List.nodup_cons]
      refine ⟨fun hc => ?_, ih h.2⟩
      rcases List.mem_map.mp hc with ⟨e, he, hee⟩
      rcases mem_mapInsert rest k v e he with rfl | he'
      · exact hf hee.symm
      · exact h.1 (List.mem_map.mpr ⟨e, he', hee⟩)

/-- With duplicate-free keys, membership determines the lookup. -/
theorem mapLookup_of_mem_nodup (m : SMap) (k : String) (v : Nat)
    (hn : (m.map Prod.fst).Nodup) (h : (k, v) ∈ m) :
    mapLookup m k = some v := by
  induction m with
  | nil => cases h
  | cons f rest ih =>
    obtain ⟨a, b⟩ := f
    simp only [List.map_cons, List.nodup_cons] at hn
    rcases List.mem_cons.mp h with heq | h'
    · cases heq
      simp [mapLookup]
    · have hf : a ≠ k := fun hc =>
        hn.1 (List.mem_map.mpr ⟨(k, v), h', hc.symm⟩)
      simp [mapLookup, hf, ih hn.2 h']

/-- A successful lookup names an entry of the list. -/
theorem mem_of_mapLookup (m : SMap) (k : String) (v : Nat)
    (h : mapLookup m k = some v) : (k, v) ∈ m := by
  induction m with
  | nil => cases h
  | cons f rest ih =>
    obtain ⟨a, b⟩ := f
    by_cases hf : a = k
    · simp only [mapLookup, if_pos hf] at h
      cases h
      exact hf ▸ List.mem_cons_self _ rest
    · simp only [mapLookup, if_neg hf] at h
      exact List.mem_cons_of_mem _ (ih h)

/-! ### Arena lemmas -/

/-- A readable handle is below the arena's cardinality. -/
theorem ItemMap.get_lt_size (m : ItemMap) (i : Nat) (x : ItemValue)
    (h : m.get i = some x) : i < m.size := by
  unfold ItemMap.get at h
  exact (List.getElem?_eq_some.mp h).1

/-- `add` leaves every existing handle readable with its old item. -/
theorem ItemMap.get_add_of_get (m : ItemMap) (v : ItemValue) (i : Nat)
    (x : ItemValue) (h : m.get i = some x) : (m.add v).1.get i = some x :=
  ItemMap.get_append m [v] i x h

/-- `add` stores the new item at the returned fresh handle. -/
theorem ItemMap.get_add_self (m : ItemMap) (v : ItemValue) :
    (m.add v).1.get (m.add v).2 = some v := by
  unfold ItemMap.add ItemMap.get
  simp

/-- `add` grows the cardinality by one. -/
theorem ItemMap.size_add (m : ItemMap) (v : ItemValue) :
    (m.add v).1.size = m.size + 1 := by
  unfold ItemMap.add ItemMap.size
  simp

/-- A successful `modifyScope` found a scope at the handle and rewrote
exactly that slot with the mutated scope. -/
theorem modifyScope_ok (m : ItemMap) (i : Nat) (f : Scope → Scope)
    (m' : ItemMap) (h : modifyScope m i f = .ok m') :
    ∃ sc, m.get i = some (.scope sc) ∧
      m'.get i = some (.scope (f sc)) ∧
      (∀ j, j ≠ i → m'.get j = m.get j) ∧
      m'.size = m.size := by
  unfold modifyScope at h
  rcases hg : m.get i with _ | x
  · rw [hg] at h; cases h
  · rcases x with sc | c | c | c | c | c
    · rw [hg] at h
      cases h
      refine ⟨sc, rfl, ?_, ?_, ?_⟩
      · have hlt := ItemMap.get_lt_size m i _ hg
        unfold ItemMap.size at hlt
        unfold ItemMap.get
        exact List.getElem?_set_self hlt
      · intro j hj
        unfold ItemMap.get
        exact List.getElem?_set_ne (fun hc => hj hc.symm)
      · unfold ItemMap.size
        simp
    all_goals (rw [hg] at h; cases h)

/-! ### The loader's effect on pre-existing items -/

/-- How the loader may change an item that already existed when a call
began: non-scope items are untouched; a scope keeps its data, original
id, manifest path, manifest and dependency list, and none of its
child-scope bindings is removed or redirected (new bindings may
appear). -/
def preservesItem : ItemValue → ItemValue → Prop
  | .scope a, .scope b =>
      b.data = a.data ∧ b.original_id = a.original_id ∧
      b.manifest_path = a.manifest_path ∧ b.manifest = a.manifest ∧
      b.dependencies = a.dependencies ∧
      (∀ k h, mapLookup a.scopes k = some h → mapLookup b.scopes k = some h)
  | a, b => b = a

/-- `preservesItem` is reflexive. -/
theorem preservesItem_refl (a : ItemValue) : preservesItem a a := by
  cases a <;> simp [preservesItem]

/-- `preservesItem` is transitive. -/
theorem preservesItem_trans {a b c : ItemValue}
    (h1 : preservesItem a b) (h2 : preservesItem b c) :
    preservesItem a c := by
  cases a <;> cases b <;> cases c <;>
    simp only [preservesItem] at h1 h2 ⊢ <;>
    first
      | exact ⟨h2.1.trans h1.1, h2.2.1.trans h1.2.1,
          h2.2.2.1.trans h1.2.2.1, h2.2.2.2.1.trans h1.2.2.2.1,
          h2.2.2.2.2.1.trans h1.2.2.2.2.1,
          fun k h hk => h2.2.2.2.2.2 k h (h1.2.2.2.2.2 k h hk)⟩
      | exact h2.trans h1
      | exact ItemValue.noConfusion h1
      | exact ItemValue.noConfusion h2

/-- Arena extension: every item readable at a call's entry is still
readable at the same handle afterwards, changed only as `preservesItem`
allows. -/
def ExtM (m m' : ItemMap) : Prop :=
  ∀ i item, m.get i = some item →
    ∃ item', m'.get i = some item' ∧ preservesItem item item'

theorem ExtM_refl (m : ItemMap) : ExtM m m :=
  fun _ item h => ⟨item, h, preservesItem_refl item⟩

theorem ExtM_trans {a b c : ItemMap} (h1 : ExtM a b) (h2 : ExtM b c) :
    ExtM a c := fun i item h => by
  obtain ⟨x, hx, px⟩ := h1 i item h
  obtain ⟨y, hy, py⟩ := h2 i x hx
  exact ⟨y, hy, preservesItem_trans px py⟩

/-- Arena extension restricted to handles below a bound. -/
def ExtFrom (n : Nat) (m m' : ItemMap) : Prop :=
  ∀ i item, i < n → m.get i = some item →
    ∃ item', m'.get i = some item' ∧ preservesItem item item'

theorem ExtM.toFrom {m m' : ItemMap} (n : Nat) (h : ExtM m m') :
    ExtFrom n m m' := fun i item _ hg => h i item hg

theorem ExtFrom_refl (n : Nat) (m : ItemMap) : ExtFrom n m m :=
  fun _ item _ h => ⟨item, h, preservesItem_refl item⟩

theorem ExtFrom_trans {n : Nat} {a b c : ItemMap}
    (h1 : ExtFrom n a b) (h2 : ExtFrom n b c) : ExtFrom n a c :=
  fun i item hi h => by
    obtain ⟨x, hx, px⟩ := h1 i item hi h
    obtain ⟨y, hy, py⟩ := h2 i x hi hx
    exact ⟨y, hy, preservesItem_trans px py⟩

/-- Extension up to the arena's own cardinality is full extension. -/
theorem ExtM_of_extFrom_size {m m' : ItemMap}
    (h : ExtFrom m.size m m') : ExtM m m' :=
  fun i item hg => h i item (ItemMap.get_lt_size m i item hg) hg

/-- Appending extends the arena. -/
theorem ExtM_add (m : ItemMap) (v : ItemValue) : ExtM m (m.add v).1 :=
  fun i item h =>
    ⟨item, ItemMap.get_add_of_get m v i item h, preservesItem_refl item⟩

/-- A successful `modifyScope` whose mutation respects `preservesItem`
extends the arena. -/
theorem ExtM_modifyScope {m : ItemMap} {i : Nat} {f : Scope → Scope}
    {m' : ItemMap} (h : modifyScope m i f = .ok m')
    (hf : ∀ sc, m.get i = some (.scope sc) →
      preservesItem (.scope sc) (.scope (f sc))) : ExtM m m' := by
  obtain ⟨sc, hgi, hgi', hne, -⟩ := modifyScope_ok m i f m' h
  intro j item hj
  by_cases hji : j = i
  · subst hji
    rw [hj] at hgi
    cases hgi
    exact ⟨.scope (f sc), hgi', hf sc hj⟩
  · exact ⟨item, (hne j hji).trans hj, preservesItem_refl item⟩

/-- A successful `modifyScope` at a handle at or above the bound leaves
everything below the bound untouched. -/
theorem ExtFrom_modifyScope_ge {m : ItemMap} {i : Nat} {f : Scope → Scope}
    {m' : ItemMap} (n : Nat) (h : modifyScope m i f = .ok m')
    (hge : n ≤ i) : ExtFrom n m m' := by
  obtain ⟨sc, hgi, hgi', hne, -⟩ := modifyScope_ok m i f m' h
  intro j item hj hg
  refine ⟨item, ?_, preservesItem_refl item⟩
  rw [hne j (by omega)]
  exact hg

/-- Threading a transitive relation through `threadFold`. -/
theorem threadFold_rel {α σ β : Type} (R : σ → σ → Prop)
    (Rrefl : ∀ st, R st st)
    (Rtrans : ∀ a b c, R a b → R b c → R a c)
    (step : α → σ → σ × Except LoadError β)
    (hstep : ∀ a st, R st (step a st).1) :
    ∀ (l : List α) (st : σ), R st (threadFold step l st).1 := by
  intro l
  induction l with
  | nil => intro st; exact Rrefl st
  | cons a rest ih =>
    intro st
    have h1 : R st (step a st).1 := hstep a st
    have h2 : R (step a st).1 (threadFold step rest (step a st).1).1 :=
      ih (step a st).1
    unfold threadFold
    cases hs : (step a st).2 with
    | error e => exact h1
    | ok b =>
      cases hr : (threadFold step rest (step a st).1).2 with
      | error e => exact Rtrans _ _ _ h1 h2
      | ok bs => exact Rtrans _ _ _ h1 h2

/-- A predicate preserved by every successful step is preserved by a
successful `threadFold`. -/
theorem threadFold_inv {α σ β : Type} (P : σ → Prop)
    (step : α → σ → σ × Except LoadError β)
    (hstep : ∀ a st b, (step a st).2 = .ok b → P st → P (step a st).1) :
    ∀ (l : List α) (st : σ) (bs : List β),
      (threadFold step l st).2 = .ok bs → P st →
        P (threadFold step l st).1 := by
  intro l
  induction l with
  | nil =>
    intro st bs _ hP
    exact hP
  | cons a rest ih =>
    intro st bs
    unfold threadFold
    cases hs : (step a st).2 with
    | error e =>
      intro h
      cases h
    | ok b =>
      cases hr : (threadFold step rest (step a st).1).2 with
      | error e =>
        intro h
        cases h
      | ok bs' =>
        intro _ hP
        exact ih (step a st).1 bs' hr (hstep a st b hs hP)

/-- `get_or_create_scope_mut` extends the arena: it only creates fresh
scopes and adds previously-absent bindings along the walked chain. -/
theorem ExtM_gocs (segs : List String) :
    ∀ (items : ItemMap) (mpath : FsPath) (start : Nat),
      ExtM items (get_or_create_scope_mut items mpath start segs).1 := by
  induction segs with
  | nil => intro items mpath start; exact ExtM_refl items
  | cons seg rest ih =>
    intro items mpath start
    unfold get_or_create_scope_mut
    split
    · rename_i sc hg
      split
      · exact ih items mpath _
      · rename_i hl
        split
        · exact ExtM_add items _
        · rename_i items2 hm
          have hadd : ExtM items (items.add (.scope (Scope.new
              { parent_id := some start, id := seg,
                source := sc.data.source } seg (some mpath) none))).1 :=
            ExtM_add items _
          have hmod : ExtM (items.add (.scope (Scope.new
              { parent_id := some start, id := seg,
                source := sc.data.source } seg (some mpath) none))).1
              items2 := by
            refine ExtM_modifyScope hm (fun sc' hsc' => ?_)
            refine ⟨rfl, rfl, rfl, rfl, rfl, fun k h hk => ?_⟩
            have hsc'' : sc' = sc := by
              have hpres := ItemMap.get_add_of_get items (.scope (Scope.new
                { parent_id := some start, id := seg,
                  source := sc.data.source } seg (some mpath) none))
                start _ hg
              rw [hpres] at hsc'
              cases hsc'
              rfl
            subst hsc''
            by_cases hks : k = seg
            · subst hks
              rw [hl] at hk
              cases hk
            · rw [mapLookup_mapInsert_ne _ _ _ _ hks]
              exact hk
          exact ExtM_trans (ExtM_trans hadd hmod) (ih items2 mpath _)
    · exact ExtM_refl items

/-- Semantic-graph extension: the root handle and standard definitions
are unchanged and the arena is extended. -/
def Ext (s s' : Semantic) : Prop :=
  s'.root_scope_id = s.root_scope_id ∧
  s'.standard_definitions = s.standard_definitions ∧
  ExtM s.items s'.items

theorem Ext_refl (s : Semantic) : Ext s s := ⟨rfl, rfl, ExtM_refl s.items⟩

theorem Ext_trans {a b c : Semantic} (h1 : Ext a b) (h2 : Ext b c) :
    Ext a c :=
  ⟨h2.1.trans h1.1, h2.2.1.trans h1.2.1, ExtM_trans h1.2.2 h2.2.2⟩

/-- `add_file_internal_go` extends the graph whenever its recursive
entry does: the only pre-existing item it mutates is the root scope,
where it inserts a binding for a name that was unbound at entry. -/
theorem Ext_internal_go (recurse : ScopeLoader)
    (hrec : ∀ P parent st visited m mpath id src,
      Ext st (recurse P parent st visited m mpath id src).sem) :
    ∀ (st : Semantic) (filename : FsPath) (P : FileProvider)
      (visited : List FsPath) (src : ItemSource) (nopt : Option String),
      Ext st (add_file_internal_go recurse st filename P visited src
        nopt).sem := by
  intro st filename P visited src nopt
  unfold add_file_internal_go
  unfold_let
  split
  · exact Ext_refl st
  · split
    · exact Ext_refl st
    · rename_i manifest hparse
      split
      · rename_i root_sc hroot
        split
        · split
          · split
            · exact Ext_refl st
            · exact Ext_refl st
          · exact Ext_refl st
        · rename_i hnone
          split
          · exact hrec _ _ _ _ _ _ _ _
          · rename_i item_id hok
            split
            · exact hrec _ _ _ _ _ _ _ _
            · rename_i items' hmod
              have hre := hrec P (some st.root_scope_id) st visited manifest
                (P.full_path filename) (nopt.getD manifest.ember.id) src
              refine ⟨hre.1, hre.2.1, ?_⟩
              intro i item hi
              obtain ⟨sc0, hg0, hg0', hne, -⟩ :=
                modifyScope_ok _ _ _ _ hmod
              by_cases hir : i = st.root_scope_id
              · subst hir
                rw [hi] at hroot
                cases hroot
                obtain ⟨item1, hitem1, hp1⟩ := hre.2.2 _ _ hi
                rw [hitem1] at hg0
                cases hg0
                simp only [preservesItem] at hp1
                refine ⟨_, hg0', ?_⟩
                obtain ⟨hd, ho, hmp, hmf, hdep, hlk⟩ := hp1
                refine ⟨hd, ho, hmp, hmf, hdep, fun k h hk => ?_⟩
                by_cases hkn : k = nopt.getD manifest.ember.id
                · subst hkn
                  rw [hk] at hnone
                  cases hnone
                · rw [mapLookup_mapInsert_ne _ _ _ _ hkn]
                  exact hlk k h hk
              · obtain ⟨item1, hitem1, hp1⟩ := hre.2.2 i item hi
                exact ⟨item1, (hne i hir).trans hitem1, hp1⟩
      · exact Ext_refl st

/-- `add_file_at_non_toplevel_go` extends the graph whenever its
recursive entry does. -/
theorem Ext_nontop_go (recurse : ScopeLoader)
    (hrec : ∀ P parent st visited m mpath id src,
      Ext st (recurse P parent st visited m mpath id src).sem) :
    ∀ (st : Semantic) (parent_scope : Nat) (filename : FsPath)
      (P : FileProvider) (visited : List FsPath) (src : ItemSource),
      Ext st (add_file_at_non_toplevel_go recurse st parent_scope filename
        P visited src).sem := by
  intro st parent_scope filename P visited src
  unfold add_file_at_non_toplevel_go
  split
  · exact Ext_refl st
  · split
    · exact Ext_refl st
    · exact hrec _ _ _ _ _ _ _ _

/-- The loop-step relation inside one `add_scope_from_manifest` call:
root and standard definitions unchanged, items below the bound preserved. -/
def ExtSVFrom (n : Nat) (sv sv' : Semantic × List FsPath) : Prop :=
  sv'.1.root_scope_id = sv.1.root_scope_id ∧
  sv'.1.standard_definitions = sv.1.standard_definitions ∧
  ExtFrom n sv.1.items sv'.1.items

theorem ExtSVFrom_refl (n : Nat) (sv : Semantic × List FsPath) :
    ExtSVFrom n sv sv := ⟨rfl, rfl, ExtFrom_refl n sv.1.items⟩

theorem ExtSVFrom_trans {n : Nat} {a b c : Semantic × List FsPath}
    (h1 : ExtSVFrom n a b) (h2 : ExtSVFrom n b c) : ExtSVFrom n a c :=
  ⟨h2.1.trans h1.1, h2.2.1.trans h1.2.1, ExtFrom_trans h1.2.2 h2.2.2⟩

/-- An include step preserves items below the current scope's handle. -/
theorem includeStep_ext (recurse : ScopeLoader)
    (hrec : ∀ P parent st visited m mpath id src,
      Ext st (recurse P parent st visited m mpath id src).sem)
    (P : FileProvider) (scope_id : Nat) (src : ItemSource) (n : Nat)
    (hge : n ≤ scope_id) :
    ∀ (a : FsPath) (sv : Semantic × List FsPath),
      ExtSVFrom n sv (includeStep recurse P scope_id src a sv).1 := by
  intro a sv
  unfold includeStep
  unfold_let
  have hout := Ext_nontop_go recurse hrec sv.1 scope_id a P sv.2 src
  split
  · exact ⟨hout.1, hout.2.1, hout.2.2.toFrom n⟩
  · split
    · split
      · exact ⟨hout.1, hout.2.1, hout.2.2.toFrom n⟩
      · rename_i items' hmod
        exact ⟨hout.1, hout.2.1,
          ExtFrom_trans (hout.2.2.toFrom n)
            (ExtFrom_modifyScope_ge n hmod hge)⟩
    · exact ⟨hout.1, hout.2.1, hout.2.2.toFrom n⟩

/-- A dependency step preserves items below the bound. -/
theorem dependencyStep_ext (recurse : ScopeLoader)
    (hrec : ∀ P parent st visited m mpath id src,
      Ext st (recurse P parent st visited m mpath id src).sem)
    (P : FileProvider) (src : ItemSource) (n : Nat) :
    ∀ (dep : String × Dependency) (sv : Semantic × List FsPath),
      ExtSVFrom n sv (dependencyStep recurse P src dep sv).1 := by
  intro dep sv
  unfold dependencyStep
  unfold_let
  split
  · rename_i path hpath
    have hout := Ext_internal_go recurse hrec sv.1 ["ambient.toml"]
      (ProxyFileProvider P path) sv.2 src (some dep.1)
    split
    · exact ⟨hout.1, hout.2.1, hout.2.2.toFrom n⟩
    · exact ⟨hout.1, hout.2.1, hout.2.2.toFrom n⟩

/-- A component step fully extends the arena. -/
theorem componentStep_extM (scope_id : Nat) (src : ItemSource)
    (mpath : FsPath) :
    ∀ (a : IdentPath × ManifestComponent) (items : ItemMap),
      ExtM items (componentStep scope_id src mpath a items).1 := by
  intro a items
  unfold componentStep
  unfold_let
  have hbase : ExtM items (get_or_create_scope_mut
      (items.add (.component (Component.from_project
        { parent_id := some scope_id, id := a.1.item, source := src }
        a.2))).1 mpath scope_id a.1.scopeSegs).1 :=
    ExtM_trans (ExtM_add _ _) (ExtM_gocs _ _ _ _)
  split
  · exact hbase
  · split
    · exact hbase
    · rename_i itemsC hmod
      exact ExtM_trans hbase (ExtM_modifyScope hmod
        (fun sc _ => ⟨rfl, rfl, rfl, rfl, rfl, fun k h hk => hk⟩))

/-- A concept step fully extends the arena. -/
theorem conceptStep_extM (scope_id : Nat) (src : ItemSource)
    (mpath : FsPath) :
    ∀ (a : IdentPath × ManifestConcept) (items : ItemMap),
      ExtM items (conceptStep scope_id src mpath a items).1 := by
  intro a items
  unfold conceptStep
  unfold_let
  have hbase : ExtM items (get_or_create_scope_mut
      (items.add (.concept (Concept.from_project
        { parent_id := some scope_id, id := a.1.item, source := src }
        a.2))).1 mpath scope_id a.1.scopeSegs).1 :=
    ExtM_trans (ExtM_add _ _) (ExtM_gocs _ _ _ _)
  split
  · exact hbase
  · split
    · exact hbase
    · rename_i itemsC hmod
      exact ExtM_trans hbase (ExtM_modifyScope hmod
        (fun sc _ => ⟨rfl, rfl, rfl, rfl, rfl, fun k h hk => hk⟩))

/-- A message step fully extends the arena. -/
theorem messageStep_extM (scope_id : Nat) (src : ItemSource)
    (mpath : FsPath) :
    ∀ (a : IdentPath × ManifestMessage) (items : ItemMap),
      ExtM items (messageStep scope_id src mpath a items).1 := by
  intro a items
  unfold messageStep
  unfold_let
  have hbase : ExtM items (get_or_create_scope_mut
      (items.add (.message (Message.from_project
        { parent_id := some scope_id, id := a.1.item, source := src }
        a.2))).1 mpath scope_id a.1.scopeSegs).1 :=
    ExtM_trans (ExtM_add _ _) (ExtM_gocs _ _ _ _)
  split
  · exact hbase
  · split
    · exact hbase
    · rename_i itemsC hmod
      exact ExtM_trans hbase (ExtM_modifyScope hmod
        (fun sc _ => ⟨rfl, rfl, rfl, rfl, rfl, fun k h hk => hk⟩))

/-- An enum step fully extends the arena. -/
theorem enumStep_extM (scope_id : Nat) (src : ItemSource) :
    ∀ (a : String × ManifestEnum) (items : ItemMap),
      ExtM items (enumStep scope_id src a items).1 := by
  intro a items
  unfold enumStep
  unfold_let
  split
  · exact ExtM_add _ _
  · rename_i itemsB hmod
    exact ExtM_trans (ExtM_add _ _) (ExtM_modifyScope hmod
      (fun sc _ => ⟨rfl, rfl, rfl, rfl, rfl, fun k h hk => hk⟩))

/-- The body of `add_scope_from_manifest` extends the graph whenever its
recursive entry does. -/
theorem Ext_body (recurse : ScopeLoader)
    (hrec : ∀ P parent st visited m mpath id src,
      Ext st (recurse P parent st visited m mpath id src).sem) :
    ∀ P parent st visited m mpath id src,
      Ext st (add_scope_from_manifest_body recurse P parent st visited m
        mpath id src).sem := by
  intro P parent st visited m mpath id src
  unfold add_scope_from_manifest_body
  unfold_let
  split
  · exact ⟨rfl, rfl, ExtM_add _ _⟩
  · set A := st.items.add (.scope (Scope.new
      { parent_id := parent, id := id, source := src } m.ember.id
      (some mpath) (some m))) with hA
    have hS0 : ExtFrom st.items.size st.items A.1 := by
      rw [hA]
      exact (ExtM_add _ _).toFrom _
    have hscope_ge : st.items.size ≤ A.2 := by
      rw [hA]
      exact Nat.le_refl _
    have hInc := threadFold_rel (ExtSVFrom st.items.size)
      (ExtSVFrom_refl _) (fun a b c => ExtSVFrom_trans)
      (includeStep recurse P A.2 src)
      (includeStep_ext recurse hrec P A.2 src st.items.size hscope_ge)
      m.ember.includes
      ({ st with items := A.1 }, visited ++ [P.full_path mpath])
    split
    · exact ⟨hInc.1, hInc.2.1,
        ExtM_of_extFrom_size (ExtFrom_trans hS0 hInc.2.2)⟩
    · have hDep := threadFold_rel (ExtSVFrom st.items.size)
        (ExtSVFrom_refl _) (fun a b c => ExtSVFrom_trans)
        (dependencyStep recurse P src)
        (dependencyStep_ext recurse hrec P src st.items.size)
        m.dependencies
        (threadFold (includeStep recurse P A.2 src) m.ember.includes
          ({ st with items := A.1 }, visited ++ [P.full_path mpath])).1
      have hPre : ExtSVFrom st.items.size
          ({ st with items := A.1 }, visited ++ [P.full_path mpath])
          (threadFold (dependencyStep recurse P src) m.dependencies
            (threadFold (includeStep recurse P A.2 src) m.ember.includes
              ({ st with items := A.1 },
                visited ++ [P.full_path mpath])).1).1 :=
        ExtSVFrom_trans hInc hDep
      split
      · exact ⟨hPre.1, hPre.2.1,
          ExtM_of_extFrom_size (ExtFrom_trans hS0 hPre.2.2)⟩
      · split
        · exact ⟨hPre.1, hPre.2.1,
            ExtM_of_extFrom_size (ExtFrom_trans hS0 hPre.2.2)⟩
        · rename_i deps items1 hmodDep
          have hAfterDepMod : ExtFrom st.items.size st.items items1 :=
            ExtFrom_trans (ExtFrom_trans hS0 hPre.2.2)
              (ExtFrom_modifyScope_ge _ hmodDep hscope_ge)
          have hComp := threadFold_rel (ExtFrom st.items.size)
            (ExtFrom_refl _) (fun a b c => ExtFrom_trans)
            (componentStep A.2 src mpath)
            (fun a it => (componentStep_extM A.2 src mpath a it).toFrom _)
            m.components items1
          split
          · exact ⟨hPre.1, hPre.2.1, ExtM_of_extFrom_size
              (ExtFrom_trans hAfterDepMod hComp)⟩
          · have hCon := threadFold_rel (ExtFrom st.items.size)
              (ExtFrom_refl _) (fun a b c => ExtFrom_trans)
              (conceptStep A.2 src mpath)
              (fun a it => (conceptStep_extM A.2 src mpath a it).toFrom _)
              m.concepts (threadFold (componentStep A.2 src mpath)
                m.components items1).1
            split
            · exact ⟨hPre.1, hPre.2.1, ExtM_of_extFrom_size
                (ExtFrom_trans hAfterDepMod (ExtFrom_trans hComp hCon))⟩
            · have hMsg := threadFold_rel (ExtFrom st.items.size)
                (ExtFrom_refl _) (fun a b c => ExtFrom_trans)
                (messageStep A.2 src mpath)
                (fun a it => (messageStep_extM A.2 src mpath a it).toFrom _)
                m.messages (threadFold (conceptStep A.2 src mpath)
                  m.concepts (threadFold (componentStep A.2 src mpath)
                    m.components items1).1).1
              split
              · exact ⟨hPre.1, hPre.2.1, ExtM_of_extFrom_size
                  (ExtFrom_trans hAfterDepMod (ExtFrom_trans hComp
                    (ExtFrom_trans hCon hMsg)))⟩
              · have hEnum := threadFold_rel (ExtFrom st.items.size)
                  (ExtFrom_refl _) (fun a b c => ExtFrom_trans)
                  (enumStep A.2 src)
                  (fun a it => (enumStep_extM A.2 src a it).toFrom _)
                  m.enums (threadFold (messageStep A.2 src mpath)
                    m.messages (threadFold (conceptStep A.2 src mpath)
                      m.concepts (threadFold (componentStep A.2 src mpath)
                        m.components items1).1).1).1
                have hAll : ExtM st.items (threadFold (enumStep A.2 src)
                    m.enums (threadFold (messageStep A.2 src mpath)
                      m.messages (threadFold (conceptStep A.2 src mpath)
                        m.concepts (threadFold (componentStep A.2 src mpath)
                          m.components items1).1).1).1).1 :=
                  ExtM_of_extFrom_size (ExtFrom_trans hAfterDepMod
                    (ExtFrom_trans hComp (ExtFrom_trans hCon
                      (ExtFrom_trans hMsg hEnum))))
                split
                · exact ⟨hPre.1, hPre.2.1, hAll⟩
                · exact ⟨hPre.1, hPre.2.1, hAll⟩

/-- `add_scope_from_manifest` extends the graph at every recursion
budget. -/
theorem Ext_asm (fuel : Nat) :
    ∀ P parent s visited m mpath id src,
      Ext s (add_scope_from_manifest fuel P parent s visited m mpath id
        src).sem := by
  induction fuel with
  | zero => intro P parent s visited m mpath id src; exact Ext_refl s
  | succ n ih =>
    intro P parent s visited m mpath id src
    rw [add_scope_from_manifest_succ]
    exact Ext_body (add_scope_from_manifest n) ih P parent s visited m
      mpath id src

/-- `add_file` extends the graph: pre-existing items keep their handle,
kind, data and registrations. -/
theorem Ext_add_file (fuel : Nat) (s : Semantic) (f : FsPath)
    (P : FileProvider) (src : ItemSource) (nopt : Option String) :
    Ext s (add_file fuel s f P src nopt).sem :=
  Ext_internal_go (add_scope_from_manifest fuel) (Ext_asm fuel) s f P []
    src nopt

/-- A scope at a handle with the given creation-time fields (data,
original id, manifest path and manifest). -/
def coreAt (mm : ItemMap) (i : Nat) (d : ItemData) (oid : String)
    (mp : Option FsPath) (mf : Option Manifest) : Prop :=
  ∃ sc, mm.get i = some (.scope sc) ∧ sc.data = d ∧ sc.original_id = oid ∧
    sc.manifest_path = mp ∧ sc.manifest = mf

/-- Core-field stability: every scope keeps its creation-time fields. -/
def CoreExtM (mm mm' : ItemMap) : Prop :=
  ∀ i d oid mp mf, coreAt mm i d oid mp mf → coreAt mm' i d oid mp mf

theorem CoreExtM_refl (mm : ItemMap) : CoreExtM mm mm := fun _ _ _ _ _ h => h

theorem CoreExtM_trans {a b c : ItemMap} (h1 : CoreExtM a b)
    (h2 : CoreExtM b c) : CoreExtM a c :=
  fun i d oid mp mf h => h2 i d oid mp mf (h1 i d oid mp mf h)

/-- Arena extension preserves core fields. -/
theorem CoreExtM_of_extM {a b : ItemMap} (h : ExtM a b) : CoreExtM a b := by
  intro i d oid mp mf ⟨sc, hg, hd, ho, hp, hf⟩
  obtain ⟨item', hg', hpres⟩ := h i _ hg
  rcases item' with sc' | y | y | y | y | y <;>
    simp only [preservesItem] at hpres
  · obtain ⟨h1, h2, h3, h4, -, -⟩ := hpres
    exact ⟨sc', hg', h1.trans hd, h2.trans ho, h3.trans hp, h4.trans hf⟩
  all_goals cases hpres

/-- A `modifyScope` whose mutation keeps the core fields preserves
`coreAt` everywhere. -/
theorem CoreExtM_modify {mm mm' : ItemMap} {j : Nat} {g : Scope → Scope}
    (h : modifyScope mm j g = .ok mm')
    (hg : ∀ sc, (g sc).data = sc.data ∧ (g sc).original_id = sc.original_id ∧
      (g sc).manifest_path = sc.manifest_path ∧ (g sc).manifest = sc.manifest) :
    CoreExtM mm mm' := by
  obtain ⟨sc0, hg0, hg0', hne, -⟩ := modifyScope_ok _ _ _ _ h
  intro i d oid mp mf ⟨sc, hgsc, hd, ho, hp, hf⟩
  by_cases hij : i = j
  · subst hij
    rw [hgsc] at hg0
    have hscc : sc = sc0 := ItemValue.scope.inj (Option.some.inj hg0)
    subst hscc
    exact ⟨g sc, hg0', (hg sc).1.trans hd, (hg sc).2.1.trans ho,
      (hg sc).2.2.1.trans hp, (hg sc).2.2.2.trans hf⟩
  · exact ⟨sc, (hne i hij).trans hgsc, hd, ho, hp, hf⟩

/-- An include step preserves core fields everywhere. -/
theorem includeStep_coreExt (recurse : ScopeLoader)
    (hrec : ∀ P parent st visited m mpath id src,
      Ext st (recurse P parent st visited m mpath id src).sem)
    (P : FileProvider) (scope_id : Nat) (src : ItemSource) :
    ∀ (a : FsPath) (sv : Semantic × List FsPath),
      CoreExtM sv.1.items (includeStep recurse P scope_id src a sv).1.1.items := by
  intro a sv
  unfold includeStep
  unfold_let
  have hout := CoreExtM_of_extM
    (Ext_nontop_go recurse hrec sv.1 scope_id a P sv.2 src).2.2
  split
  · exact hout
  · split
    · split
      · exact hout
      · rename_i items' hmod
        exact CoreExtM_trans hout (CoreExtM_modify hmod
          (fun sc => ⟨rfl, rfl, rfl, rfl⟩))
    · exact hout

/-- A dependency step preserves core fields everywhere. -/
theorem dependencyStep_coreExt (recurse : ScopeLoader)
    (hrec : ∀ P parent st visited m mpath id src,
      Ext st (recurse P parent st visited m mpath id src).sem)
    (P : FileProvider) (src : ItemSource) :
    ∀ (dep : String × Dependency) (sv : Semantic × List FsPath),
      CoreExtM sv.1.items (dependencyStep recurse P src dep sv).1.1.items := by
  intro dep sv
  unfold dependencyStep
  unfold_let
  split
  · rename_i path hpath
    have hout := CoreExtM_of_extM
      (Ext_internal_go recurse hrec sv.1 ["ambient.toml"]
        (ProxyFileProvider P path) sv.2 src (some dep.1)).2.2
    split
    · exact hout
    · exact hout

/-- The body of `add_scope_from_manifest` returns, on success, the fresh
handle of the scope it created, and that scope retains its creation-time
fields — the supplied parent, id and source, the manifest's ember id as
original id, the manifest path and the manifest. -/
theorem body_ok_data (recurse : ScopeLoader)
    (hrec : ∀ P parent st visited m mpath id src,
      Ext st (recurse P parent st visited m mpath id src).sem) :
    ∀ P parent st visited m mpath id src sid,
      (add_scope_from_manifest_body recurse P parent st visited m mpath id
        src).res = .ok sid →
      sid = st.items.size ∧
      coreAt (add_scope_from_manifest_body recurse P parent st visited m
        mpath id src).sem.items sid
        { parent_id := parent, id := id, source := src } m.ember.id
        (some mpath) (some m) := by
  intro P parent st visited m mpath id src sid
  unfold add_scope_from_manifest_body
  unfold_let
  split
  · intro h; cases h
  · set A := st.items.add (.scope (Scope.new
      { parent_id := parent, id := id, source := src } m.ember.id
      (some mpath) (some m))) with hA
    have h0 : coreAt A.1 A.2
        { parent_id := parent, id := id, source := src } m.ember.id
        (some mpath) (some m) := by
      rw [hA]
      exact ⟨_, ItemMap.get_add_self _ _, rfl, rfl, rfl, rfl⟩
    have hInc := threadFold_rel
      (fun sv sv' : Semantic × List FsPath => CoreExtM sv.1.items sv'.1.items)
      (fun sv => CoreExtM_refl _) (fun a b c => CoreExtM_trans)
      (includeStep recurse P A.2 src)
      (includeStep_coreExt recurse hrec P A.2 src)
      m.ember.includes
      ({ st with items := A.1 }, visited ++ [P.full_path mpath])
    split
    · intro h; cases h
    · have hDep := threadFold_rel
        (fun sv sv' : Semantic × List FsPath =>
          CoreExtM sv.1.items sv'.1.items)
        (fun sv => CoreExtM_refl _) (fun a b c => CoreExtM_trans)
        (dependencyStep recurse P src)
        (dependencyStep_coreExt recurse hrec P src)
        m.dependencies
        (threadFold (includeStep recurse P A.2 src) m.ember.includes
          ({ st with items := A.1 }, visited ++ [P.full_path mpath])).1
      split
      · intro h; cases h
      · split
        · intro h; cases h
        · rename_i deps items1 hmodDep
          have hCore1 : coreAt items1 A.2
              { parent_id := parent, id := id, source := src } m.ember.id
              (some mpath) (some m) :=
            CoreExtM_modify hmodDep (fun sc => ⟨rfl, rfl, rfl, rfl⟩) _ _ _ _ _
              (hDep _ _ _ _ _ (hInc _ _ _ _ _ h0))
          have hComp := threadFold_rel CoreExtM
            CoreExtM_refl (fun a b c => CoreExtM_trans)
            (componentStep A.2 src mpath)
            (fun a it => CoreExtM_of_extM (componentStep_extM A.2 src mpath a it))
            m.components items1
          split
          · intro h; cases h
          · have hCon := threadFold_rel CoreExtM
              CoreExtM_refl (fun a b c => CoreExtM_trans)
              (conceptStep A.2 src mpath)
              (fun a it => CoreExtM_of_extM (conceptStep_extM A.2 src mpath a it))
              m.concepts (threadFold (componentStep A.2 src mpath)
                m.components items1).1
            split
            · intro h; cases h
            · have hMsg := threadFold_rel CoreExtM
                CoreExtM_refl (fun a b c => CoreExtM_trans)
                (messageStep A.2 src mpath)
                (fun a it => CoreExtM_of_extM (messageStep_extM A.2 src mpath a it))
                m.messages (threadFold (conceptStep A.2 src mpath)
                  m.concepts (threadFold (componentStep A.2 src mpath)
                    m.components items1).1).1
              split
              · intro h; cases h
              · have hEnum := threadFold_rel CoreExtM
                  CoreExtM_refl (fun a b c => CoreExtM_trans)
                  (enumStep A.2 src)
                  (fun a it => CoreExtM_of_extM (enumStep_extM A.2 src a it))
                  m.enums (threadFold (messageStep A.2 src mpath)
                    m.messages (threadFold (conceptStep A.2 src mpath)
                      m.concepts (threadFold (componentStep A.2 src mpath)
                        m.components items1).1).1).1
                split
                · intro h; cases h
                · intro h
                  cases h
                  refine ⟨rfl, ?_⟩
                  exact hEnum _ _ _ _ _ (hMsg _ _ _ _ _ (hCon _ _ _ _ _
                    (hComp _ _ _ _ _ hCore1)))

/-- `add_scope_from_manifest` returns, on success, the fresh handle of
the scope it created, and that scope retains its creation-time fields. -/
theorem asm_ok_data (fuel : Nat) :
    ∀ P parent s visited m mpath id src sid,
      (add_scope_from_manifest fuel P parent s visited m mpath id
        src).res = .ok sid →
      sid = s.items.size ∧
      coreAt (add_scope_from_manifest fuel P parent s visited m mpath id
        src).sem.items sid
        { parent_id := parent, id := id, source := src } m.ember.id
        (some mpath) (some m) := by
  cases fuel with
  | zero => intro P parent s visited m mpath id src sid h; cases h
  | succ n =>
    intro P parent s visited m mpath id src sid
    rw [add_scope_from_manifest_succ]
    exact body_ok_data (add_scope_from_manifest n) (Ext_asm n) P parent s
      visited m mpath id src sid

/-! ### Scope-tree well-formedness (bidirectionality) -/

/-- Scope-map well-formedness: in every scope, the child-scope keys are
duplicate-free and every binding `(k, h)` names a scope whose
`parent_id` points back to the binding's owner and whose `data.id` is
the binding's key. Together with key uniqueness this is scope-tree
bidirectionality: every registered scope is found again under its own
id. -/
def InvM (mm : ItemMap) : Prop :=
  ∀ pid sc, mm.get pid = some (.scope sc) →
    ((sc.scopes.map Prod.fst).Nodup ∧
      ∀ e ∈ sc.scopes, ∃ child, mm.get e.2 = some (.scope child) ∧
        child.data.parent_id = some pid ∧ child.data.id = e.1)

/-- Reading from the arena after an `add` hits the old arena or the
fresh item. -/
theorem ItemMap.get_add_cases (m : ItemMap) (v : ItemValue) (i : Nat)
    (x : ItemValue) (h : (m.add v).1.get i = some x) :
    (i < m.size ∧ m.get i = some x) ∨ (i = m.size ∧ x = v) := by
  simp only [ItemMap.add, ItemMap.get, ItemMap.size] at h ⊢
  by_cases hlt : i < m.items.length
  · left
    rw [List.getElem?_append_left hlt] at h
    exact ⟨hlt, h⟩
  · right
    rw [List.getElem?_append_right (Nat.le_of_not_lt hlt)] at h
    rcases Nat.lt_or_ge i (m.items.length + 1) with hl | hg
    · have hi : i = m.items.length := by omega
      subst hi
      simp at h
      exact ⟨rfl, h.symm⟩
    · exfalso
      rw [List.getElem?_eq_none (by simp; omega)] at h
      cases h

/-- Adding an item with no child bindings preserves well-formedness. -/
theorem InvM_add (m : ItemMap) (v : ItemValue)
    (hv : ∀ sc, v = .scope sc → sc.scopes = [])
    (h : InvM m) : InvM (m.add v).1 := by
  intro pid sc hg
  rcases ItemMap.get_add_cases m v pid _ hg with ⟨hlt, hold⟩ | ⟨hsz, hval⟩
  · obtain ⟨hnd, hent⟩ := h pid sc hold
    refine ⟨hnd, fun e he => ?_⟩
    obtain ⟨child, hc, hp, hid⟩ := hent e he
    exact ⟨child, ItemMap.get_add_of_get _ _ _ _ hc, hp, hid⟩
  · have hsc : sc.scopes = [] := hv sc hval.symm
    rw [hsc]
    exact ⟨List.nodup_nil, by intro e he; cases he⟩

/-- Lifting a child-scope read over a data-preserving `modifyScope`. -/
theorem child_lift {mm mm' : ItemMap} {j : Nat} {g : Scope → Scope}
    (h : modifyScope mm j g = .ok mm')
    (hdata : ∀ sc, (g sc).data = sc.data)
    {t : Nat} {child : Scope} (hc : mm.get t = some (.scope child)) :
    ∃ child', mm'.get t = some (.scope child') ∧
      child'.data = child.data := by
  obtain ⟨sc0, hg0, hg0', hne, -⟩ := modifyScope_ok _ _ _ _ h
  by_cases htj : t = j
  · subst htj
    rw [hc] at hg0
    have hcc : child = sc0 := ItemValue.scope.inj (Option.some.inj hg0)
    subst hcc
    exact ⟨g child, hg0', hdata child⟩
  · exact ⟨child, (hne t htj).trans hc, rfl⟩

/-- A data-preserving `modifyScope` whose new child-map is well-formed
against the old arena preserves well-formedness. -/
theorem InvM_modify {mm mm' : ItemMap} {j : Nat} {g : Scope → Scope}
    (h : modifyScope mm j g = .ok mm')
    (hdata : ∀ sc, (g sc).data = sc.data)
    (hmaps : ∀ sc, mm.get j = some (.scope sc) →
      (((g sc).scopes.map Prod.fst).Nodup ∧
        ∀ e ∈ (g sc).scopes, ∃ child, mm.get e.2 = some (.scope child) ∧
          child.data.parent_id = some j ∧ child.data.id = e.1))
    (hm : InvM mm) : InvM mm' := by
  obtain ⟨sc0, hg0, hg0', hne, -⟩ := modifyScope_ok _ _ _ _ h
  intro pid sc hg
  by_cases hpj : pid = j
  · subst hpj
    have hsc : g sc0 = sc :=
      ItemValue.scope.inj (Option.some.inj (hg0'.symm.trans hg))
    obtain ⟨hnd, hent⟩ := hmaps sc0 hg0
    rw [hsc] at hnd hent
    refine ⟨hnd, fun e he => ?_⟩
    obtain ⟨child, hc, hp, hid⟩ := hent e he
    obtain ⟨child', hc', hd'⟩ := child_lift h hdata hc
    exact ⟨child', hc', by rw [hd']; exact hp, by rw [hd']; exact hid⟩
  · rw [hne pid hpj] at hg
    obtain ⟨hnd, hent⟩ := hm pid sc hg
    refine ⟨hnd, fun e he => ?_⟩
    obtain ⟨child, hc, hp, hid⟩ := hent e he
    obtain ⟨child', hc', hd'⟩ := child_lift h hdata hc
    exact ⟨child', hc', by rw [hd']; exact hp, by rw [hd']; exact hid⟩

/-- A `modifyScope` not touching data or child bindings preserves
well-formedness. -/
theorem InvM_modify_plain {mm mm' : ItemMap} {j : Nat} {g : Scope → Scope}
    (h : modifyScope mm j g = .ok mm')
    (hdata : ∀ sc, (g sc).data = sc.data)
    (hscopes : ∀ sc, (g sc).scopes = sc.scopes)
    (hm : InvM mm) : InvM mm' := by
  refine InvM_modify h hdata (fun sc hgj => ?_) hm
  rw [hscopes]
  exact hm j sc hgj

/-- Inserting a binding that satisfies the bidirectionality side
condition preserves well-formedness. -/
theorem InvM_modify_insert {mm mm' : ItemMap} {j : Nat} {k : String}
    {v : Nat}
    (h : modifyScope mm j
      (fun sc => { sc with scopes := mapInsert sc.scopes k v }) = .ok mm')
    (hside : ∃ child, mm.get v = some (.scope child) ∧
      child.data.parent_id = some j ∧ child.data.id = k)
    (hm : InvM mm) : InvM mm' := by
  refine InvM_modify h (fun _ => rfl) (fun sc hgj => ?_) hm
  refine ⟨nodupKeys_mapInsert _ _ _ (hm j sc hgj).1, fun e he => ?_⟩
  rcases mem_mapInsert _ _ _ _ he with rfl | hmem
  · exact hside
  · exact (hm j sc hgj).2 e hmem

/-- `get_or_create_scope_mut` preserves well-formedness: intermediate
scopes are created with the enclosing scope as parent and the walked
segment as id, and registered under a previously-absent key. -/
theorem InvM_gocs (segs : List String) :
    ∀ (items : ItemMap) (mpath : FsPath) (start : Nat),
      InvM items → InvM (get_or_create_scope_mut items mpath start segs).1 := by
  induction segs with
  | nil => intro items mpath start h; exact h
  | cons seg rest ih =>
    intro items mpath start h
    unfold get_or_create_scope_mut
    split
    · rename_i sc hg
      split
      · exact ih items mpath _ h
      · rename_i hl
        have hadd : InvM (items.add (.scope (Scope.new
            { parent_id := some start, id := seg,
              source := sc.data.source } seg (some mpath) none))).1 := by
          refine InvM_add items _ (fun sc' hv => ?_) h
          cases hv
          rfl
        split
        · exact hadd
        · rename_i items2 hm
          refine ih items2 mpath _ (InvM_modify_insert hm ?_ hadd)
          exact ⟨_, ItemMap.get_add_self _ _, rfl, rfl⟩
    · exact h

/-- A component step preserves well-formedness. -/
theorem componentStep_inv (scope_id : Nat) (src : ItemSource)
    (mpath : FsPath) :
    ∀ (a : IdentPath × ManifestComponent) (items : ItemMap),
      InvM items → InvM (componentStep scope_id src mpath a items).1 := by
  intro a items h
  unfold componentStep
  unfold_let
  have h1 : InvM (items.add (.component (Component.from_project
      { parent_id := some scope_id, id := a.1.item, source := src }
      a.2))).1 :=
    InvM_add items _ (fun sc hv => by cases hv) h
  have h2 := InvM_gocs a.1.scopeSegs _ mpath scope_id h1
  split
  · exact h2
  · split
    · exact h2
    · rename_i itemsC hmod
      exact InvM_modify_plain hmod (fun _ => rfl) (fun _ => rfl) h2

/-- A concept step preserves well-formedness. -/
theorem conceptStep_inv (scope_id : Nat) (src : ItemSource)
    (mpath : FsPath) :
    ∀ (a : IdentPath × ManifestConcept) (items : ItemMap),
      InvM items → InvM (conceptStep scope_id src mpath a items).1 := by
  intro a items h
  unfold conceptStep
  unfold_let
  have h1 : InvM (items.add (.concept (Concept.from_project
      { parent_id := some scope_id, id := a.1.item, source := src }
      a.2))).1 :=
    InvM_add items _ (fun sc hv => by cases hv) h
  have h2 := InvM_gocs a.1.scopeSegs _ mpath scope_id h1
  split
  · exact h2
  · split
    · exact h2
    · rename_i itemsC hmod
      exact InvM_modify_plain hmod (fun _ => rfl) (fun _ => rfl) h2

/-- A message step preserves well-formedness. -/
theorem messageStep_inv (scope_id : Nat) (src : ItemSource)
    (mpath : FsPath) :
    ∀ (a : IdentPath × ManifestMessage) (items : ItemMap),
      InvM items → InvM (messageStep scope_id src mpath a items).1 := by
  intro a items h
  unfold messageStep
  unfold_let
  have h1 : InvM (items.add (.message (Message.from_project
      { parent_id := some scope_id, id := a.1.item, source := src }
      a.2))).1 :=
    InvM_add items _ (fun sc hv => by cases hv) h
  have h2 := InvM_gocs a.1.scopeSegs _ mpath scope_id h1
  split
  · exact h2
  · split
    · exact h2
    · rename_i itemsC hmod
      exact InvM_modify_plain hmod (fun _ => rfl) (fun _ => rfl) h2

/-- An enum step preserves well-formedness. -/
theorem enumStep_inv (scope_id : Nat) (src : ItemSource) :
    ∀ (a : String × ManifestEnum) (items : ItemMap),
      InvM items → InvM (enumStep scope_id src a items).1 := by
  intro a items h
  unfold enumStep
  unfold_let
  have h1 : InvM (items.add (.ty (Ty.from_project_enum
      { parent_id := some scope_id, id := a.1, source := src } a.2))).1 :=
    InvM_add items _ (fun sc hv => by cases hv) h
  split
  · exact h1
  · rename_i itemsB hmod
    exact InvM_modify_plain hmod (fun _ => rfl) (fun _ => rfl) h1

/-- `add_file_at_non_toplevel_go` preserves well-formedness whenever the
recursive entry does. -/
theorem nontop_go_inv (recurse : ScopeLoader)
    (hrecInv : ∀ P parent st visited m mpath id src,
      InvM st.items → InvM (recurse P parent st visited m mpath id
        src).sem.items) :
    ∀ (st : Semantic) (parent_scope : Nat) (filename : FsPath)
      (P : FileProvider) (visited : List FsPath) (src : ItemSource),
      InvM st.items → InvM (add_file_at_non_toplevel_go recurse st
        parent_scope filename P visited src).sem.items := by
  intro st parent_scope filename P visited src h
  unfold add_file_at_non_toplevel_go
  split
  · exact h
  · split
    · exact h
    · exact hrecInv _ _ _ _ _ _ _ _ h

/-- On success, `add_file_at_non_toplevel_go` returns a handle holding a
scope whose parent pointer is the supplied enclosing scope. -/
theorem nontop_go_post (recurse : ScopeLoader)
    (hrecPost : ∀ P parent st visited m mpath id src sid,
      (recurse P parent st visited m mpath id src).res = .ok sid →
      coreAt (recurse P parent st visited m mpath id src).sem.items sid
        { parent_id := parent, id := id, source := src } m.ember.id
        (some mpath) (some m)) :
    ∀ (st : Semantic) (parent_scope : Nat) (filename : FsPath)
      (P : FileProvider) (visited : List FsPath) (src : ItemSource)
      (sid : Nat),
      (add_file_at_non_toplevel_go recurse st parent_scope filename P
        visited src).res = .ok sid →
      ∃ sc, (add_file_at_non_toplevel_go recurse st parent_scope filename
        P visited src).sem.items.get sid = some (.scope sc) ∧
        sc.data.parent_id = some parent_scope := by
  intro st parent_scope filename P visited src sid
  unfold add_file_at_non_toplevel_go
  split
  · intro h; cases h
  · split
    · intro h; cases h
    · intro h
      obtain ⟨sc, hg, hd, -, -, -⟩ := hrecPost _ _ _ _ _ _ _ _ _ h
      exact ⟨sc, hg, by rw [hd]⟩

/-- `add_file_internal_go` preserves well-formedness whenever the
recursive entry does: the binding it inserts into the root points at the
scope the recursive call just created for exactly that name under the
root. -/
theorem internal_go_inv (recurse : ScopeLoader)
    (hrecInv : ∀ P parent st visited m mpath id src,
      InvM st.items → InvM (recurse P parent st visited m mpath id
        src).sem.items)
    (hrecPost : ∀ P parent st visited m mpath id src sid,
      (recurse P parent st visited m mpath id src).res = .ok sid →
      coreAt (recurse P parent st visited m mpath id src).sem.items sid
        { parent_id := parent, id := id, source := src } m.ember.id
        (some mpath) (some m)) :
    ∀ (st : Semantic) (filename : FsPath) (P : FileProvider)
      (visited : List FsPath) (src : ItemSource) (nopt : Option String),
      InvM st.items → InvM (add_file_internal_go recurse st filename P
        visited src nopt).sem.items := by
  intro st filename P visited src nopt h
  unfold add_file_internal_go
  unfold_let
  split
  · exact h
  · split
    · exact h
    · rename_i manifest hparse
      split
      · rename_i root_sc hroot
        split
        · split
          · split
            · exact h
            · exact h
          · exact h
        · rename_i hnone
          split
          · exact hrecInv _ _ _ _ _ _ _ _ h
          · rename_i item_id hok
            split
            · exact hrecInv _ _ _ _ _ _ _ _ h
            · rename_i items' hmod
              have hI := hrecInv P (some st.root_scope_id) st visited
                manifest (P.full_path filename)
                (nopt.getD manifest.ember.id) src h
              refine InvM_modify_insert hmod ?_ hI
              obtain ⟨sc, hg, hd, -, -, -⟩ :=
                hrecPost _ _ _ _ _ _ _ _ _ hok
              exact ⟨sc, hg, by rw [hd], by rw [hd]⟩
      · exact h

/-- An include step preserves well-formedness: the child binding it
inserts into the current scope carries the child's own id as key and the
child's parent pointer is the current scope. -/
theorem includeStep_inv (recurse : ScopeLoader)
    (hrecInv : ∀ P parent st visited m mpath id src,
      InvM st.items → InvM (recurse P parent st visited m mpath id
        src).sem.items)
    (hrecPost : ∀ P parent st visited m mpath id src sid,
      (recurse P parent st visited m mpath id src).res = .ok sid →
      coreAt (recurse P parent st visited m mpath id src).sem.items sid
        { parent_id := parent, id := id, source := src } m.ember.id
        (some mpath) (some m))
    (P : FileProvider) (scope_id : Nat) (src : ItemSource) :
    ∀ (a : FsPath) (sv : Semantic × List FsPath),
      InvM sv.1.items →
        InvM (includeStep recurse P scope_id src a sv).1.1.items := by
  intro a sv h
  unfold includeStep
  unfold_let
  have hOutInv : InvM (add_file_at_non_toplevel_go recurse sv.1 scope_id a
      P sv.2 src).sem.items :=
    nontop_go_inv recurse hrecInv sv.1 scope_id a P sv.2 src h
  split
  · exact hOutInv
  · rename_i child_scope_id hres
    split
    · rename_i child hchild
      split
      · exact hOutInv
      · rename_i items' hmod
        refine InvM_modify_insert hmod ?_ hOutInv
        obtain ⟨sc', hg', hp'⟩ :=
          nontop_go_post recurse hrecPost sv.1 scope_id a P sv.2 src
            child_scope_id hres
        have hce : child = sc' :=
          ItemValue.scope.inj (Option.some.inj (hchild.symm.trans hg'))
        exact ⟨child, hchild, by rw [hce]; exact hp', rfl⟩
    · exact hOutInv

/-- A dependency step preserves well-formedness. -/
theorem dependencyStep_inv (recurse : ScopeLoader)
    (hrecInv : ∀ P parent st visited m mpath id src,
      InvM st.items → InvM (recurse P parent st visited m mpath id
        src).sem.items)
    (hrecPost : ∀ P parent st visited m mpath id src sid,
      (recurse P parent st visited m mpath id src).res = .ok sid →
      coreAt (recurse P parent st visited m mpath id src).sem.items sid
        { parent_id := parent, id := id, source := src } m.ember.id
        (some mpath) (some m))
    (P : FileProvider) (src : ItemSource) :
    ∀ (dep : String × Dependency) (sv : Semantic × List FsPath),
      InvM sv.1.items →
        InvM (dependencyStep recurse P src dep sv).1.1.items := by
  intro dep sv h
  unfold dependencyStep
  unfold_let
  split
  · rename_i path hpath
    have hout := internal_go_inv recurse hrecInv hrecPost sv.1
      ["ambient.toml"] (ProxyFileProvider P path) sv.2 src (some dep.1) h
    split
    · exact hout
    · exact hout

/-- The body of `add_scope_from_manifest` preserves well-formedness
whenever the recursive entry does: the fresh scope starts with no child
bindings, every loop step preserves the invariant, and the
dependency-list append touches neither scope data nor bindings. -/
theorem body_inv (recurse : ScopeLoader)
    (hrecInv : ∀ P parent st visited m mpath id src,
      InvM st.items → InvM (recurse P parent st visited m mpath id
        src).sem.items)
    (hrecPost : ∀ P parent st visited m mpath id src sid,
      (recurse P parent st visited m mpath id src).res = .ok sid →
      coreAt (recurse P parent st visited m mpath id src).sem.items sid
        { parent_id := parent, id := id, source := src } m.ember.id
        (some mpath) (some m)) :
    ∀ P parent st visited m mpath id src,
      InvM st.items →
        InvM (add_scope_from_manifest_body recurse P parent st visited m
          mpath id src).sem.items := by
  intro P parent st visited m mpath id src h
  unfold add_scope_from_manifest_body
  unfold_let
  split
  · exact InvM_add st.items _ (fun sc hv => by cases hv; rfl) h
  · set A := st.items.add (.scope (Scope.new
      { parent_id := parent, id := id, source := src } m.ember.id
      (some mpath) (some m))) with hA
    have h0 : InvM A.1 := by
      rw [hA]
      exact InvM_add st.items _ (fun sc hv => by cases hv; rfl) h
    have hInc := threadFold_rel
      (fun sv sv' : Semantic × List FsPath =>
        InvM sv.1.items → InvM sv'.1.items)
      (fun sv hi => hi) (fun a b c h1 h2 hi => h2 (h1 hi))
      (includeStep recurse P A.2 src)
      (fun a sv => includeStep_inv recurse hrecInv hrecPost P A.2 src a sv)
      m.ember.includes
      ({ st with items := A.1 }, visited ++ [P.full_path mpath])
    split
    · exact hInc h0
    · have hDep := threadFold_rel
        (fun sv sv' : Semantic × List FsPath =>
          InvM sv.1.items → InvM sv'.1.items)
        (fun sv hi => hi) (fun a b c h1 h2 hi => h2 (h1 hi))
        (dependencyStep recurse P src)
        (fun dep sv => dependencyStep_inv recurse hrecInv hrecPost P src
          dep sv)
        m.dependencies
        (threadFold (includeStep recurse P A.2 src) m.ember.includes
          ({ st with items := A.1 }, visited ++ [P.full_path mpath])).1
      split
      · exact hDep (hInc h0)
      · split
        · exact hDep (hInc h0)
        · rename_i deps items1 hmodDep
          have hI1 : InvM items1 :=
            InvM_modify_plain hmodDep (fun _ => rfl) (fun _ => rfl)
              (hDep (hInc h0))
          have hComp := threadFold_rel
            (fun it it' : ItemMap => InvM it → InvM it')
            (fun it hi => hi) (fun a b c h1 h2 hi => h2 (h1 hi))
            (componentStep A.2 src mpath)
            (fun a it => componentStep_inv A.2 src mpath a it)
            m.components items1
          split
          · exact hComp hI1
          · have hCon := threadFold_rel
              (fun it it' : ItemMap => InvM it → InvM it')
              (fun it hi => hi) (fun a b c h1 h2 hi => h2 (h1 hi))
              (conceptStep A.2 src mpath)
              (fun a it => conceptStep_inv A.2 src mpath a it)
              m.concepts (threadFold (componentStep A.2 src mpath)
                m.components items1).1
            split
            · exact hCon (hComp hI1)
            · have hMsg := threadFold_rel
                (fun it it' : ItemMap => InvM it → InvM it')
                (fun it hi => hi) (fun a b c h1 h2 hi => h2 (h1 hi))
                (messageStep A.2 src mpath)
                (fun a it => messageStep_inv A.2 src mpath a it)
                m.messages (threadFold (conceptStep A.2 src mpath)
                  m.concepts (threadFold (componentStep A.2 src mpath)
                    m.components items1).1).1
              split
              · exact hMsg (hCon (hComp hI1))
              · have hEnum := threadFold_rel
                  (fun it it' : ItemMap => InvM it → InvM it')
                  (fun it hi => hi) (fun a b c h1 h2 hi => h2 (h1 hi))
                  (enumStep A.2 src)
                  (fun a it => enumStep_inv A.2 src a it)
                  m.enums (threadFold (messageStep A.2 src mpath)
                    m.messages (threadFold (conceptStep A.2 src mpath)
                      m.concepts (threadFold (componentStep A.2 src mpath)
                        m.components items1).1).1).1
                split
                · exact hEnum (hMsg (hCon (hComp hI1)))
                · exact hEnum (hMsg (hCon (hComp hI1)))

/-- `add_scope_from_manifest` preserves well-formedness at every
recursion budget. -/
theorem asm_inv (fuel : Nat) :
    ∀ P parent s visited m mpath id src,
      InvM s.items →
        InvM (add_scope_from_manifest fuel P parent s visited m mpath id
          src).sem.items := by
  induction fuel with
  | zero => intro P parent s visited m mpath id src h; exact h
  | succ n ih =>
    intro P parent s visited m mpath id src
    rw [add_scope_from_manifest_succ]
    exact body_inv (add_scope_from_manifest n) ih
      (fun P' parent' st' visited' m' mpath' id' src' sid hres =>
        (asm_ok_data n P' parent' st' visited' m' mpath' id' src' sid
          hres).2)
      P parent s visited m mpath id src

/-- `add_file` preserves scope-map well-formedness. -/
theorem add_file_inv (fuel : Nat) (s : Semantic) (f : FsPath)
    (P : FileProvider) (src : ItemSource) (nopt : Option String)
    (h : InvM s.items) : InvM (add_file fuel s f P src nopt).sem.items :=
  internal_go_inv (add_scope_from_manifest fuel) (asm_inv fuel)
    (fun P' parent' st' visited' m' mpath' id' src' sid hres =>
      (asm_ok_data fuel P' parent' st' visited' m' mpath' id' src' sid
        hres).2)
    s f P [] src nopt h

/-- Executable check of scope-map well-formedness over the whole
arena. -/
def invCheck (mm : ItemMap) : Bool :=
  (List.range mm.size).all fun pid =>
    match mm.get pid with
    | some (.scope sc) =>
      decide ((sc.scopes.map Prod.fst).Nodup) &&
      sc.scopes.all fun e =>
        match mm.get e.2 with
        | some (.scope child) =>
          decide (child.data.parent_id = some pid ∧ child.data.id = e.1)
        | _ => false
    | _ => true

/-- A passing executable check certifies well-formedness. -/
theorem invCheck_sound (mm : ItemMap) (h : invCheck mm = true) :
    InvM mm := by
  intro pid sc hg
  unfold invCheck at h
  rw [List.all_eq_true] at h
  have hp := h pid (List.mem_range.mpr (ItemMap.get_lt_size mm pid _ hg))
  simp only [hg, Bool.and_eq_true, decide_eq_true_eq,
    List.all_eq_true] at hp
  obtain ⟨hnd, hent⟩ := hp
  refine ⟨hnd, fun e he => ?_⟩
  have hpe := hent e he
  rcases hge : mm.get e.2 with _ | (child | c | c | c | c | c)
  · rw [hge] at hpe
    simp at hpe
  · rw [hge] at hpe
    simp only [decide_eq_true_eq] at hpe
    exact ⟨child, rfl, hpe.1, hpe.2⟩
  all_goals (rw [hge] at hpe; simp at hpe)

/-! ### Dependency-loading postconditions -/

/-- A dependency registration: at `hnd` sits a scope whose parent is
`root`, whose `data.id` is the registration name, whose manifest path is
`mp`, and the root's child map binds the name to `hnd`. -/
def depFact (mm : ItemMap) (root : Nat) (name : String)
    (mp : Option FsPath) (hnd : Nat) : Prop :=
  ∃ dsc, mm.get hnd = some (.scope dsc) ∧
    dsc.data.parent_id = some root ∧ dsc.data.id = name ∧
    dsc.manifest_path = mp ∧
    ∃ rsc, mm.get root = some (.scope rsc) ∧
      mapLookup rsc.scopes name = some hnd

/-- Arena extension preserves dependency registrations. -/
theorem depFact_of_extM {mm mm' : ItemMap} (h : ExtM mm mm')
    {root : Nat} {name : String} {mp : Option FsPath} {hnd : Nat}
    (hf : depFact mm root name mp hnd) : depFact mm' root name mp hnd := by
  obtain ⟨dsc, hg, hp, hid, hmp, rsc, hgr, hlk⟩ := hf
  obtain ⟨d', hg', pd⟩ := h hnd _ hg
  rcases d' with dsc' | c | c | c | c | c <;>
    simp only [preservesItem] at pd
  · obtain ⟨r', hgr', pr⟩ := h root _ hgr
    rcases r' with rsc' | c | c | c | c | c <;>
      simp only [preservesItem] at pr
    · exact ⟨dsc', hg', by rw [pd.1]; exact hp, by rw [pd.1]; exact hid,
        pd.2.2.1.trans hmp, rsc', hgr', pr.2.2.2.2.2 name hnd hlk⟩
    all_goals cases pr
  all_goals cases pd

/-- The dependency-list append preserves dependency registrations: it
changes no scope's data, manifest path or child bindings. -/
theorem depFact_modify_depsappend {mm mm' : ItemMap} {j : Nat}
    {l : List Nat}
    (h : modifyScope mm j
      (fun sc => { sc with dependencies := sc.dependencies ++ l }) =
      .ok mm')
    {root : Nat} {name : String} {mp : Option FsPath} {hnd : Nat}
    (hf : depFact mm root name mp hnd) : depFact mm' root name mp hnd := by
  obtain ⟨sc0, hg0, hg0', hne, -⟩ := modifyScope_ok _ _ _ _ h
  obtain ⟨dsc, hg, hp, hid, hmp, rsc, hgr, hlk⟩ := hf
  have hber : ∀ t sc1, mm.get t = some (.scope sc1) →
      ∃ sc2, mm'.get t = some (.scope sc2) ∧ sc2.data = sc1.data ∧
        sc2.manifest_path = sc1.manifest_path ∧ sc2.scopes = sc1.scopes := by
    intro t sc1 hgt
    by_cases htj : t = j
    · subst htj
      have hsc1 : sc1 = sc0 :=
        ItemValue.scope.inj (Option.some.inj (hgt.symm.trans hg0))
      subst hsc1
      exact ⟨_, hg0', rfl, rfl, rfl⟩
    · exact ⟨sc1, (hne t htj).trans hgt, rfl, rfl, rfl⟩
  obtain ⟨dsc', hg', hd', hmp', -⟩ := hber hnd dsc hg
  obtain ⟨rsc', hgr', -, -, hsc'⟩ := hber root rsc hgr
  exact ⟨dsc', hg', by rw [hd']; exact hp, by rw [hd']; exact hid,
    hmp'.trans hmp, rsc', hgr', by rw [hsc']; exact hlk⟩

/-- The scope at `j` has exactly the dependency handles `l`. -/
def depsAt (mm : ItemMap) (j : Nat) (l : List Nat) : Prop :=
  ∃ sc, mm.get j = some (.scope sc) ∧ sc.dependencies = l

/-- Arena extension preserves dependency lists. -/
theorem depsAt_of_extM {mm mm' : ItemMap} (h : ExtM mm mm') {j : Nat}
    {l : List Nat} (hd : depsAt mm j l) : depsAt mm' j l := by
  obtain ⟨sc, hg, hdep⟩ := hd
  obtain ⟨it, hg', p⟩ := h j _ hg
  rcases it with sc' | c | c | c | c | c <;> simp only [preservesItem] at p
  · exact ⟨sc', hg', p.2.2.2.2.1.trans hdep⟩
  all_goals cases p

/-- A `modifyScope` that keeps dependency lists preserves `depsAt`. -/
theorem depsAt_modify {mm mm' : ItemMap} {t : Nat} {g : Scope → Scope}
    (h : modifyScope mm t g = .ok mm')
    (hdep : ∀ sc, (g sc).dependencies = sc.dependencies)
    {j : Nat} {l : List Nat} (hd : depsAt mm j l) : depsAt mm' j l := by
  obtain ⟨sc0, hg0, hg0', hne, -⟩ := modifyScope_ok _ _ _ _ h
  obtain ⟨sc, hg, hdl⟩ := hd
  by_cases hjt : j = t
  · subst hjt
    have hsc : sc = sc0 :=
      ItemValue.scope.inj (Option.some.inj (hg.symm.trans hg0))
    subst hsc
    exact ⟨g sc, hg0', (hdep sc).trans hdl⟩
  · exact ⟨sc, (hne j hjt).trans hg, hdl⟩

/-- An include step touches no dependency list. -/
theorem includeStep_depsAt (recurse : ScopeLoader)
    (hrecExt : ∀ P parent st visited m mpath id src,
      Ext st (recurse P parent st visited m mpath id src).sem)
    (P : FileProvider) (scope_id : Nat) (src : ItemSource) :
    ∀ (a : FsPath) (sv : Semantic × List FsPath) (j : Nat) (l : List Nat),
      depsAt sv.1.items j l →
        depsAt (includeStep recurse P scope_id src a sv).1.1.items j l := by
  intro a sv j l hd
  unfold includeStep
  unfold_let
  have hout := depsAt_of_extM
    (Ext_nontop_go recurse hrecExt sv.1 scope_id a P sv.2 src).2.2 hd
  split
  · exact hout
  · split
    · split
      · exact hout
      · rename_i items' hmod
        exact depsAt_modify hmod (fun _ => rfl) hout
    · exact hout

/-- A dependency step fully extends the graph. -/
theorem dependencyStep_fullExt (recurse : ScopeLoader)
    (hrecExt : ∀ P parent st visited m mpath id src,
      Ext st (recurse P parent st visited m mpath id src).sem)
    (P : FileProvider) (src : ItemSource) :
    ∀ (dep : String × Dependency) (sv : Semantic × List FsPath),
      Ext sv.1 (dependencyStep recurse P src dep sv).1.1 := by
  intro dep sv
  unfold dependencyStep
  unfold_let
  split
  · rename_i path hpath
    have hout := Ext_internal_go recurse hrecExt sv.1 ["ambient.toml"]
      (ProxyFileProvider P path) sv.2 src (some dep.1)
    split
    · exact hout
    · exact hout

/-- On success with an explicit scope name, `add_file_internal_go`
leaves the root handle unchanged and establishes the registration:
both on idempotent re-add (by the well-formedness of the existing
binding and the path-equality check) and on fresh creation (by the
recursive postcondition and the root insert). -/
theorem internal_go_ok_post (recurse : ScopeLoader)
    (hrecExt : ∀ P parent st visited m mpath id src,
      Ext st (recurse P parent st visited m mpath id src).sem)
    (hrecPost : ∀ P parent st visited m mpath id src sid,
      (recurse P parent st visited m mpath id src).res = .ok sid →
      coreAt (recurse P parent st visited m mpath id src).sem.items sid
        { parent_id := parent, id := id, source := src } m.ember.id
        (some mpath) (some m))
    (hrecSize : ∀ P parent st visited m mpath id src sid,
      (recurse P parent st visited m mpath id src).res = .ok sid →
      sid = st.items.size) :
    ∀ (st : Semantic) (filename : FsPath) (P : FileProvider)
      (visited : List FsPath) (src : ItemSource) (name : String)
      (sid : Nat),
      InvM st.items →
      (add_file_internal_go recurse st filename P visited src
        (some name)).res = .ok sid →
      (add_file_internal_go recurse st filename P visited src
        (some name)).sem.root_scope_id = st.root_scope_id ∧
      depFact (add_file_internal_go recurse st filename P visited src
        (some name)).sem.items st.root_scope_id name
        (some (P.full_path filename)) sid := by
  intro st filename P visited src name sid hInv
  unfold add_file_internal_go
  unfold_let
  simp only [Option.getD_some]
  split
  · intro h; cases h
  · split
    · intro h; cases h
    · rename_i manifest hparse
      split
      · rename_i root_sc hroot
        split
        · rename_i existing_scope_id hlook
          split
          · rename_i existing hex
            split
            · rename_i hpath
              intro h
              cases h
              refine ⟨rfl, ?_⟩
              obtain ⟨hnd, hent⟩ := hInv st.root_scope_id root_sc hroot
              have hmem := mem_of_mapLookup root_sc.scopes name
                sid hlook
              obtain ⟨child, hc, hp, hid⟩ :=
                hent (name, sid) hmem
              have hce : existing = child :=
                ItemValue.scope.inj (Option.some.inj (hex.symm.trans hc))
              exact ⟨existing, hex, by rw [hce]; exact hp,
                by rw [hce]; exact hid, hpath, root_sc, hroot, hlook⟩
            · intro h; cases h
          · intro h; cases h
        · rename_i hnone
          split
          · intro h; cases h
          · rename_i item_id hok
            split
            · intro h; cases h
            · rename_i items' hmod
              intro h
              cases h
              have hre := hrecExt P (some st.root_scope_id) st visited
                manifest (P.full_path filename) name src
              obtain ⟨sc, hg, hd, ho, hmpp, hmf⟩ :=
                hrecPost P (some st.root_scope_id) st visited manifest
                  (P.full_path filename) name src sid hok
              obtain ⟨sc0, hg0, hg0', hne, -⟩ := modifyScope_ok _ _ _ _ hmod
              have hsz := hrecSize P (some st.root_scope_id) st visited
                manifest (P.full_path filename) name src sid hok
              have hroot_lt : st.root_scope_id < st.items.size :=
                ItemMap.get_lt_size _ _ _ hroot
              have hne_root : sid ≠ st.root_scope_id := by omega
              refine ⟨hre.1, sc, (hne sid hne_root).trans hg,
                by rw [hd], by rw [hd], hmpp, _, hg0',
                mapLookup_mapInsert_self sc0.scopes name sid⟩
      · intro h; cases h

/-- On success, a dependency step has taken the `Path` arm, left the
root handle unchanged and registered the dependency: a root child named
by the dependency name whose manifest came from `ambient.toml` under the
proxy-rebased provider. -/
theorem dependencyStep_ok_post (recurse : ScopeLoader)
    (hrecExt : ∀ P parent st visited m mpath id src,
      Ext st (recurse P parent st visited m mpath id src).sem)
    (hrecPost : ∀ P parent st visited m mpath id src sid,
      (recurse P parent st visited m mpath id src).res = .ok sid →
      coreAt (recurse P parent st visited m mpath id src).sem.items sid
        { parent_id := parent, id := id, source := src } m.ember.id
        (some mpath) (some m))
    (hrecSize : ∀ P parent st visited m mpath id src sid,
      (recurse P parent st visited m mpath id src).res = .ok sid →
      sid = st.items.size)
    (P : FileProvider) (src : ItemSource) :
    ∀ (dep : String × Dependency) (sv : Semantic × List FsPath) (h0 : Nat),
      InvM sv.1.items →
      (dependencyStep recurse P src dep sv).2 = .ok h0 →
      ∃ path, dep.2 = .path path ∧
        (dependencyStep recurse P src dep sv).1.1.root_scope_id =
          sv.1.root_scope_id ∧
        depFact (dependencyStep recurse P src dep sv).1.1.items
          sv.1.root_scope_id dep.1
          (some ((ProxyFileProvider P path).full_path ["ambient.toml"]))
          h0 := by
  intro dep sv h0 hInv
  unfold dependencyStep
  unfold_let
  split
  · rename_i path hpath
    split
    · intro h; cases h
    · rename_i nsid hok
      intro h
      cases h
      obtain ⟨hrt, hfact⟩ := internal_go_ok_post recurse hrecExt hrecPost
        hrecSize sv.1 ["ambient.toml"] (ProxyFileProvider P path) sv.2
        src dep.1 h0 hInv hok
      exact ⟨path, hpath, hrt, hfact⟩

/-- A successful dependency fold registers each dependency of the list
under its name as a root child loaded from `ambient.toml` of the
proxy-rebased provider, and collects the handles in manifest order. -/
theorem depFold_post (recurse : ScopeLoader)
    (hrecExt : ∀ P parent st visited m mpath id src,
      Ext st (recurse P parent st visited m mpath id src).sem)
    (hrecInv : ∀ P parent st visited m mpath id src,
      InvM st.items → InvM (recurse P parent st visited m mpath id
        src).sem.items)
    (hrecPost : ∀ P parent st visited m mpath id src sid,
      (recurse P parent st visited m mpath id src).res = .ok sid →
      coreAt (recurse P parent st visited m mpath id src).sem.items sid
        { parent_id := parent, id := id, source := src } m.ember.id
        (some mpath) (some m))
    (hrecSize : ∀ P parent st visited m mpath id src sid,
      (recurse P parent st visited m mpath id src).res = .ok sid →
      sid = st.items.size)
    (P : FileProvider) (src : ItemSource) :
    ∀ (deps : List (String × Dependency)) (sv : Semantic × List FsPath)
      (handles : List Nat),
      InvM sv.1.items →
      (threadFold (dependencyStep recurse P src) deps sv).2 =
        .ok handles →
      List.Forall₂ (fun (dep : String × Dependency) (hnd : Nat) =>
        ∃ path, dep.2 = .path path ∧
          depFact (threadFold (dependencyStep recurse P src) deps
              sv).1.1.items sv.1.root_scope_id dep.1
            (some ((ProxyFileProvider P path).full_path ["ambient.toml"]))
            hnd) deps handles := by
  intro deps
  induction deps with
  | nil =>
    intro sv handles hInv hres
    cases hres
    exact List.Forall₂.nil
  | cons dep rest ih =>
    intro sv handles hInv
    unfold threadFold
    cases hs : (dependencyStep recurse P src dep sv).2 with
    | error e => intro h; cases h
    | ok h0 =>
      cases hr : (threadFold (dependencyStep recurse P src) rest
          (dependencyStep recurse P src dep sv).1).2 with
      | error e => intro h; cases h
      | ok hs' =>
        intro h
        cases h
        obtain ⟨path, hdp, hrt, hfact⟩ := dependencyStep_ok_post recurse
          hrecExt hrecPost hrecSize P src dep sv h0 hInv hs
        have hExtRest : Ext (dependencyStep recurse P src dep sv).1.1
            (threadFold (dependencyStep recurse P src) rest
              (dependencyStep recurse P src dep sv).1).1.1 :=
          threadFold_rel
            (fun a b : Semantic × List FsPath => Ext a.1 b.1)
            (fun a => Ext_refl _) (fun a b c h1 h2 => Ext_trans h1 h2)
            (dependencyStep recurse P src)
            (fun d sv' => dependencyStep_fullExt recurse hrecExt P src d
              sv')
            rest (dependencyStep recurse P src dep sv).1
        have hfact' := depFact_of_extM hExtRest.2.2 hfact
        have hInv' : InvM (dependencyStep recurse P src dep sv).1.1.items :=
          dependencyStep_inv recurse hrecInv hrecPost P src dep sv hInv
        have hrest := ih (dependencyStep recurse P src dep sv).1 hs'
          hInv' hr
        rw [hrt] at hrest
        exact List.Forall₂.cons ⟨path, hdp, hfact'⟩ hrest

/-- On success, the body of `add_scope_from_manifest` has registered
every dependency of the manifest under its name as a root child loaded
from `ambient.toml` of the proxy-rebased provider, and the created scope
holds exactly the collected handles, in manifest order. -/
theorem body_dep_post (recurse : ScopeLoader)
    (hrecExt : ∀ P parent st visited m mpath id src,
      Ext st (recurse P parent st visited m mpath id src).sem)
    (hrecInv : ∀ P parent st visited m mpath id src,
      InvM st.items → InvM (recurse P parent st visited m mpath id
        src).sem.items)
    (hrecPost : ∀ P parent st visited m mpath id src sid,
      (recurse P parent st visited m mpath id src).res = .ok sid →
      coreAt (recurse P parent st visited m mpath id src).sem.items sid
        { parent_id := parent, id := id, source := src } m.ember.id
        (some mpath) (some m))
    (hrecSize : ∀ P parent st visited m mpath id src sid,
      (recurse P parent st visited m mpath id src).res = .ok sid →
      sid = st.items.size) :
    ∀ P parent st visited m mpath id src sid,
      InvM st.items →
      (add_scope_from_manifest_body recurse P parent st visited m mpath
        id src).res = .ok sid →
      ∃ handles : List Nat,
        depsAt (add_scope_from_manifest_body recurse P parent st visited
          m mpath id src).sem.items sid handles ∧
        List.Forall₂ (fun (dep : String × Dependency) (hnd : Nat) =>
          ∃ path, dep.2 = .path path ∧
            depFact (add_scope_from_manifest_body recurse P parent st
                visited m mpath id src).sem.items st.root_scope_id dep.1
              (some ((ProxyFileProvider P path).full_path
                ["ambient.toml"]))
              hnd) m.dependencies handles := by
  intro P parent st visited m mpath id src sid hInv
  unfold add_scope_from_manifest_body
  unfold_let
  split
  · intro h; cases h
  · set A := st.items.add (.scope (Scope.new
      { parent_id := parent, id := id, source := src } m.ember.id
      (some mpath) (some m))) with hA
    have hInvA : InvM A.1 := by
      rw [hA]
      exact InvM_add st.items _ (fun sc hv => by cases hv; rfl) hInv
    have h00 : depsAt A.1 A.2 [] := by
      rw [hA]
      exact ⟨_, ItemMap.get_add_self _ _, rfl⟩
    have hscope_ge : st.items.size ≤ A.2 := by
      rw [hA]
      exact Nat.le_refl _
    have hIncInvRel := threadFold_rel
      (fun a b : Semantic × List FsPath =>
        InvM a.1.items → InvM b.1.items)
      (fun a hi => hi) (fun a b c h1 h2 hi => h2 (h1 hi))
      (includeStep recurse P A.2 src)
      (fun a sv' => includeStep_inv recurse hrecInv hrecPost P A.2 src a
        sv')
      m.ember.includes
      ({ st with items := A.1 }, visited ++ [P.full_path mpath])
    have hIncRootRel := threadFold_rel (ExtSVFrom st.items.size)
      (ExtSVFrom_refl _) (fun a b c => ExtSVFrom_trans)
      (includeStep recurse P A.2 src)
      (includeStep_ext recurse hrecExt P A.2 src st.items.size hscope_ge)
      m.ember.includes
      ({ st with items := A.1 }, visited ++ [P.full_path mpath])
    have hIncDeps := threadFold_rel
      (fun a b : Semantic × List FsPath =>
        ∀ j l, depsAt a.1.items j l → depsAt b.1.items j l)
      (fun a j l hd => hd) (fun a b c h1 h2 j l hd => h2 j l (h1 j l hd))
      (includeStep recurse P A.2 src)
      (fun a sv' => includeStep_depsAt recurse hrecExt P A.2 src a sv')
      m.ember.includes
      ({ st with items := A.1 }, visited ++ [P.full_path mpath])
    have hDepDeps := threadFold_rel
      (fun a b : Semantic × List FsPath =>
        ∀ j l, depsAt a.1.items j l → depsAt b.1.items j l)
      (fun a j l hd => hd) (fun a b c h1 h2 j l hd => h2 j l (h1 j l hd))
      (dependencyStep recurse P src)
      (fun d sv' j l hd => depsAt_of_extM
        (dependencyStep_fullExt recurse hrecExt P src d sv').2.2 hd)
      m.dependencies
      (threadFold (includeStep recurse P A.2 src) m.ember.includes
        ({ st with items := A.1 }, visited ++ [P.full_path mpath])).1
    split
    · intro h; cases h
    · split
      · intro h; cases h
      · rename_i deps hdepok
        split
        · intro h; cases h
        · rename_i items1 hmodDep
          have hrootInc : (threadFold (includeStep recurse P A.2 src)
              m.ember.includes ({ st with items := A.1 },
                visited ++ [P.full_path mpath])).1.1.root_scope_id =
              st.root_scope_id := hIncRootRel.1
          have hFor := depFold_post recurse hrecExt hrecInv hrecPost
            hrecSize P src m.dependencies
            (threadFold (includeStep recurse P A.2 src) m.ember.includes
              ({ st with items := A.1 },
                visited ++ [P.full_path mpath])).1
            deps (hIncInvRel hInvA) hdepok
          rw [hrootInc] at hFor
          obtain ⟨sc0, hg0, hg0', hne, -⟩ := modifyScope_ok _ _ _ _ hmodDep
          obtain ⟨scd, hgd, hde⟩ := hDepDeps _ _ (hIncDeps _ _ h00)
          have hscd : scd = sc0 :=
            ItemValue.scope.inj (Option.some.inj (hgd.symm.trans hg0))
          subst hscd
          have hdeps1 : depsAt items1 A.2 deps := by
            refine ⟨_, hg0', ?_⟩
            show scd.dependencies ++ deps = deps
            simp [hde]
          have hFor1 : List.Forall₂
              (fun (dep : String × Dependency) (hnd : Nat) =>
                ∃ path, dep.2 = .path path ∧
                  depFact items1 st.root_scope_id dep.1
                    (some ((ProxyFileProvider P path).full_path
                      ["ambient.toml"])) hnd)
              m.dependencies deps := by
            refine List.Forall₂.imp ?_ hFor
            intro a b hab
            obtain ⟨path, hdp, hf⟩ := hab
            exact ⟨path, hdp, depFact_modify_depsappend hmodDep hf⟩
          have hC := threadFold_rel ExtM ExtM_refl
            (fun a b c h1 h2 => ExtM_trans h1 h2)
            (componentStep A.2 src mpath)
            (componentStep_extM A.2 src mpath) m.components items1
          have hCo := threadFold_rel ExtM ExtM_refl
            (fun a b c h1 h2 => ExtM_trans h1 h2)
            (conceptStep A.2 src mpath)
            (conceptStep_extM A.2 src mpath) m.concepts
            (threadFold (componentStep A.2 src mpath) m.components
              items1).1
          have hM := threadFold_rel ExtM ExtM_refl
            (fun a b c h1 h2 => ExtM_trans h1 h2)
            (messageStep A.2 src mpath)
            (messageStep_extM A.2 src mpath) m.messages
            (threadFold (conceptStep A.2 src mpath) m.concepts
              (threadFold (componentStep A.2 src mpath) m.components
                items1).1).1
          have hE := threadFold_rel ExtM ExtM_refl
            (fun a b c h1 h2 => ExtM_trans h1 h2)
            (enumStep A.2 src) (enumStep_extM A.2 src) m.enums
            (threadFold (messageStep A.2 src mpath) m.messages
              (threadFold (conceptStep A.2 src mpath) m.concepts
                (threadFold (componentStep A.2 src mpath) m.components
                  items1).1).1).1
          have hTail : ExtM items1
              (threadFold (enumStep A.2 src) m.enums
                (threadFold (messageStep A.2 src mpath) m.messages
                  (threadFold (conceptStep A.2 src mpath) m.concepts
                    (threadFold (componentStep A.2 src mpath)
                      m.components items1).1).1).1).1 :=
            ExtM_trans (ExtM_trans (ExtM_trans hC hCo) hM) hE
          split
          · intro h; cases h
          · split
            · intro h; cases h
            · split
              · intro h; cases h
              · split
                · intro h; cases h
                · intro h
                  cases h
                  refine ⟨deps, depsAt_of_extM hTail hdeps1, ?_⟩
                  exact List.Forall₂.imp
                    (fun a b hab => by
                      obtain ⟨path, hdp, hf⟩ := hab
                      exact ⟨path, hdp, depFact_of_extM hTail hf⟩)
                    hFor1

/-! ### C7 -/

/-- C7: for every dependency entry `(name, Path { path })` the loader
runs the top-level loader on `ambient.toml` through a `ProxyFileProvider`
rebased at `path`, with `scope_name = name` and the same source
(first conjunct, the exact call shape of a dependency step); and on a
successful `add_scope_from_manifest` call, in a well-formed graph, the
created scope's `dependencies` list holds exactly the returned handles
in manifest order, each naming a root child registered under the
dependency name whose manifest was read from `ambient.toml` of the
rebased provider (second conjunct). -/
theorem C7_dependency_loading (fuel : Nat) (P : FileProvider)
    (parent : Option Nat) (st : Semantic) (visited : List FsPath)
    (m : Manifest) (mpath : FsPath) (id : String) (src : ItemSource)
    (sid : Nat) (hInv : InvM st.items)
    (hres : (add_scope_from_manifest (fuel + 1) P parent st visited m
      mpath id src).res = .ok sid) :
    (∀ (rec : ScopeLoader) (name : String) (path : FsPath)
        (sv : Semantic × List FsPath),
      dependencyStep rec P src (name, .path path) sv =
        (((add_file_internal_go rec sv.1 ["ambient.toml"]
            (ProxyFileProvider P path) sv.2 src (some name)).sem,
          (add_file_internal_go rec sv.1 ["ambient.toml"]
            (ProxyFileProvider P path) sv.2 src (some name)).visited),
         Except.mapError (LoadError.dependencyFailed name)
           (add_file_internal_go rec sv.1 ["ambient.toml"]
             (ProxyFileProvider P path) sv.2 src (some name)).res)) ∧
    ∃ handles : List Nat,
      depsAt (add_scope_from_manifest (fuel + 1) P parent st visited m
        mpath id src).sem.items sid handles ∧
      List.Forall₂ (fun (dep : String × Dependency) (hnd : Nat) =>
        ∃ path, dep.2 = .path path ∧
          depFact (add_scope_from_manifest (fuel + 1) P parent st visited
              m mpath id src).sem.items st.root_scope_id dep.1
            (some ((ProxyFileProvider P path).full_path ["ambient.toml"]))
            hnd) m.dependencies handles := by
  constructor
  · intro rec name path sv
    cases ho : (add_file_internal_go rec sv.1 ["ambient.toml"]
        (ProxyFileProvider P path) sv.2 src (some name)).res with
    | error e => simp [dependencyStep, ho, Except.mapError]
    | ok nsid => simp [dependencyStep, ho, Except.mapError]
  · rw [add_scope_from_manifest_succ] at hres ⊢
    exact body_dep_post (add_scope_from_manifest fuel) (Ext_asm fuel)
      (asm_inv fuel)
      (fun P' parent' st' v' m' mp' i' s' sid' hr =>
        (asm_ok_data fuel P' parent' st' v' m' mp' i' s' sid' hr).2)
      (fun P' parent' st' v' m' mp' i' s' sid' hr =>
        (asm_ok_data fuel P' parent' st' v' m' mp' i' s' sid' hr).1)
      P parent st visited m mpath id src sid hInv hres

/-- The manifest of the `lib` dependency of the witness scenario: its
own ember id differs from the dependency name. -/
def libManifest : Manifest :=
  { ember := { id := "liblib", includes := [] }, dependencies := [],
    components := [], concepts := [], messages := [], enums := [] }

/-- A provider carrying the dependency's manifest at
`lib/ambient.toml`. -/
def libProvider : FileProvider :=
  ArrayFileProvider [(["lib", "ambient.toml"], .ok libManifest)]

/-- Witness for C7: loading a manifest with one `Path` dependency named
`lib` on the fixture graph succeeds; the created scope (handle 2) ends
with dependencies exactly `[3]`, and handle 3 is a root child named
`lib` (not its own ember id `liblib`) whose manifest came from
`lib/ambient.toml`. -/
theorem C7_dependency_loading_witness :
    invCheck demoSemantic.items = true ∧
    (add_scope_from_manifest 8 libProvider (some 0) demoSemantic []
      depManifest ["ambient.toml"] "p" .user).res = .ok 2 ∧
    (getScope (add_scope_from_manifest 8 libProvider (some 0) demoSemantic
        [] depManifest ["ambient.toml"] "p" .user).sem.items 2).map
      (fun sc => sc.dependencies) = some [3] ∧
    (getScope (add_scope_from_manifest 8 libProvider (some 0) demoSemantic
        [] depManifest ["ambient.toml"] "p" .user).sem.items 3).map
      (fun sc => (sc.data.parent_id, sc.data.id, sc.original_id,
        sc.manifest_path)) =
      some (some 0, "lib", "liblib", some ["lib", "ambient.toml"]) ∧
    ∃ handles : List Nat,
      depsAt (add_scope_from_manifest 8 libProvider (some 0) demoSemantic
        [] depManifest ["ambient.toml"] "p" .user).sem.items 2 handles ∧
      List.Forall₂ (fun (dep : String × Dependency) (hnd : Nat) =>
        ∃ path, dep.2 = .path path ∧
          depFact (add_scope_from_manifest 8 libProvider (some 0)
              demoSemantic [] depManifest ["ambient.toml"] "p"
              .user).sem.items demoSemantic.root_scope_id dep.1
            (some ((ProxyFileProvider libProvider path).full_path
              ["ambient.toml"]))
            hnd) depManifest.dependencies handles :=
  ⟨by decide, by decide, by decide, by decide,
   (C7_dependency_loading 7 libProvider (some 0) demoSemantic []
      depManifest ["ambient.toml"] "p" .user 2
      (invCheck_sound demoSemantic.items (by decide)) (by decide)).2⟩

/-! ### C1 -/

/-- The loader run refuting C1 as stated: adding the `demo` manifest to
the bootstrap graph under the explicit scope name `myname`. -/
def c1run : LoadOut :=
  add_file 8 theSemantic ["ambient.toml"] demoProvider .user (some "myname")

/-- C1 counterexample: a top-level file added with an explicit
`scope_name` is registered in the root under that name while its
`original_id` stays the manifest's ember id `demo`, so the parent's
mapping at `original_id` is not the scope's handle — the key `demo` is
absent from the root's mapping entirely. -/
theorem C1_counterexample :
    (Semantic.new 8).isOk = true ∧
    c1run.res = .ok 27 ∧
    (getScope c1run.sem.items 27).map
        (fun sc => (sc.data.parent_id, sc.original_id)) =
      some (some theSemantic.root_scope_id, "demo") ∧
    mapLookup (rootScopes c1run.sem) "demo" = none ∧
    mapLookup (rootScopes c1run.sem) "myname" = some 27 :=
  ⟨by decide, by decide, by decide, by decide, by decide⟩

/-- C1 (amended): scope-tree bidirectionality holds with the scope's
`data.id` — the name it was registered under — in place of
`original_id`: scope-map well-formedness (duplicate-free keys, every
binding pointing at a scope whose parent pointer is the binding's owner
and whose `data.id` is the binding's key) holds after bootstrap and is
preserved by every `add_file`/`add_ember` call, successful or not; under
it every scope `S` registered in a parent satisfies
`parent(S).scopes[S.data.id] == handle(S)`. -/
theorem C1_scope_bidirectionality (fuel : Nat) (s : Semantic) (f : FsPath)
    (P : FileProvider) (src : ItemSource) (nopt : Option String)
    (hs : InvM s.items) :
    InvM (add_file fuel s f P src nopt).sem.items ∧
    (∀ s0, Semantic.new 8 = .ok s0 → InvM s0.items) ∧
    (∀ pid sc, (add_file fuel s f P src nopt).sem.items.get pid =
        some (.scope sc) →
      ∀ e ∈ sc.scopes, ∃ child,
        (add_file fuel s f P src nopt).sem.items.get e.2 =
          some (.scope child) ∧
        child.data.parent_id = some pid ∧
        mapLookup sc.scopes child.data.id = some e.2) := by
  have hout := add_file_inv fuel s f P src nopt hs
  refine ⟨hout, ?_, ?_⟩
  · intro s0 h0
    have hts : theSemantic = s0 := by
      unfold theSemantic
      rw [h0]
      rfl
    rw [← hts]
    exact invCheck_sound theSemantic.items (by decide)
  · intro pid sc hg e he
    obtain ⟨hnd, hent⟩ := hout pid sc hg
    obtain ⟨child, hc, hp, hid⟩ := hent e he
    refine ⟨child, hc, hp, ?_⟩
    rw [hid]
    exact mapLookup_of_mem_nodup sc.scopes e.1 e.2 hnd (by simpa using he)

/-- Witness for C1 (amended): the invariant is checkable on the
bootstrap graph and preserved across a concrete `add_file` run. -/
theorem C1_scope_bidirectionality_witness :
    invCheck theSemantic.items = true ∧
    InvM (add_file 8 theSemantic ["ambient.toml"] demoProvider .user
      none).sem.items :=
  ⟨by decide,
   (C1_scope_bidirectionality 8 theSemantic ["ambient.toml"] demoProvider
      .user none (invCheck_sound theSemantic.items (by decide))).1⟩

end ProjectSemantic
